import Mathlib

/-!
Verification of the line-oriented purchase-order extraction engine of this
repository (src/extractors.py) against its specification.

The Python code is shallowly embedded: every definition below mirrors a
specific function or code block of src/extractors.py (the source location is
given in each doc comment).  Strings are Lean `String`s; Python floats are
modelled as rationals (`Rat`), with Python `float(...)` parsing modelled on
finite decimal/exponent literals (the only shapes the numeric columns can
produce); regular-expression searches are implemented as explicit
character-level scanners with Python backtracking semantics.  All lines fed to
the matchers by the engine are whitespace-collapsed (single ASCII spaces, no
leading/trailing whitespace) — `" ".join(linha.split())` runs first — so
greedy `\s+` never needs to backtrack; the scanners use that invariant.
-/

namespace ConvertePdf

/-- Python `str` whitespace (the characters `str.split()` / `str.strip()`
split on, restricted to those that can occur in extracted PDF text):
space, tab, newline, carriage return, vertical tab, form feed, NBSP. -/
def isPySpace (c : Char) : Bool :=
  c = ' ' || c = '\t' || c = '\n' || c = '\r' ||
  c = Char.ofNat 11 || c = Char.ofNat 12 || c = Char.ofNat 160

/-- ASCII decimal digit, the `\d` class on the inputs at hand. -/
def isDigitC (c : Char) : Bool := c.isDigit

/-- Python `str.strip()` on a character list: drop leading and trailing
whitespace. -/
def pyStripL (cs : List Char) : List Char :=
  (cs.dropWhile isPySpace).rdropWhile isPySpace

/-- Python `str.strip()`. -/
def pyStrip (s : String) : String := String.mk (pyStripL s.data)

/-- One-pass accumulator loop behind `runsBy`: `acc` holds the reversed
characters of the run currently being read. -/
def runsByAux (p : Char → Bool) (acc : List Char) : List Char → List (List Char)
  | [] => if acc = [] then [] else [acc.reverse]
  | c :: cs =>
    if p c then runsByAux p (c :: acc) cs
    else if acc = [] then runsByAux p [] cs
    else acc.reverse :: runsByAux p [] cs

/-- The maximal runs of characters satisfying `p`, in order (all runs are
nonempty); the shape shared by `str.split()` and `re.findall` on a single
character class. -/
def runsBy (p : Char → Bool) (cs : List Char) : List (List Char) := runsByAux p [] cs

/-- Python `str.split()` with no argument: the maximal whitespace-free runs
of the string, in order. -/
def pyWords (cs : List Char) : List (List Char) := runsBy (fun c => !isPySpace c) cs

/-- Python `" ".join(ws)` on character-list words. -/
def joinSp : List (List Char) → List Char
  | [] => []
  | [w] => w
  | w :: ws => w ++ ' ' :: joinSp ws

/-- Python `" ".join(linha.split())` — the whitespace-collapsing first step of
the Mondelez line normalizer (src/extractors.py line 631). -/
def collapseWs (s : String) : String := String.mk (joinSp (pyWords s.data))

/-- Python `pat in s` substring search: index of the first occurrence of
`pat` in `cs`, if any (`str.find` that reports `none` for `-1`). -/
def subFind? (pat : List Char) : List Char → Option Nat
  | [] => if pat = [] then some 0 else none
  | c :: cs =>
    if pat.isPrefixOf (c :: cs) then some 0
    else (subFind? pat cs).map (· + 1)

/-- Python `pat in s` (substring containment). -/
def containsSub (s pat : String) : Bool := (subFind? pat.data s.data).isSome

/-- Value of a list of ASCII digits read in base 10 (`int(...)` on a digit
run). -/
def digitsVal (ds : List Char) : Nat :=
  ds.foldl (fun a c => a * 10 + (c.toNat - 48)) 0

/-- The shape of a finite decimal float literal: sign, integer-part value,
fraction-part value and digit count, exponent sign and value. -/
structure FloatLit where
  neg : Bool
  ipVal : Nat
  fpVal : Nat
  fpLen : Nat
  exNeg : Bool
  exVal : Nat
deriving DecidableEq, Repr

/-- Parsing phase of Python `float(s)`: recognise an optionally signed finite
decimal literal with optional fraction and exponent — every string the
engine's numeric columns can produce after separator replacement.  Returns
`none` where `float(...)` raises `ValueError` (`inf`/`nan` and underscore
separators, which cannot reach the converters, are not modelled). -/
def pyFloatParse? (s : String) : Option FloatLit :=
  let cs0 := pyStripL s.data
  let (neg, cs) : Bool × List Char :=
    match cs0 with
    | '-' :: t => (true, t)
    | '+' :: t => (false, t)
    | t => (false, t)
  let ip := cs.takeWhile isDigitC
  let r1 := cs.dropWhile isDigitC
  let (fp, r2) : List Char × List Char :=
    match r1 with
    | '.' :: t => (t.takeWhile isDigitC, t.dropWhile isDigitC)
    | t => ([], t)
  if ip = [] ∧ fp = [] then none
  else
    match r2 with
    | [] => some ⟨neg, digitsVal ip, digitsVal fp, fp.length, false, 0⟩
    | e :: t =>
      if e = 'e' || e = 'E' then
        let (eneg, t2) : Bool × List Char :=
          match t with
          | '-' :: u => (true, u)
          | '+' :: u => (false, u)
          | u => (false, u)
        let ed := t2.takeWhile isDigitC
        let rest := t2.dropWhile isDigitC
        if ed = [] ∨ rest ≠ [] then none
        else some ⟨neg, digitsVal ip, digitsVal fp, fp.length, eneg, digitsVal ed⟩
      else none

/-- Value of a parsed float literal, as an exact rational. -/
def floatVal (f : FloatLit) : Rat :=
  let mant : Rat := (f.ipVal : Rat) + (f.fpVal : Rat) / (10 : Rat) ^ f.fpLen
  let signed := if f.neg then -mant else mant
  if f.exNeg then signed / (10 : Rat) ^ f.exVal else signed * (10 : Rat) ^ f.exVal

/-- Python `float(s)` as an exact rational, `none` on parse failure. -/
def pyFloat? (s : String) : Option Rat := (pyFloatParse? s).map floatVal

/-- The separator replacement of `conv_num` (src/extractors.py lines 450 and
863): `val.replace('.', '').replace(',', '.')` — drop thousands periods,
turn the decimal comma into a period. -/
def sepReplace (s : String) : String :=
  String.mk ((s.data.filter (fun c => c != '.')).map
    (fun c => if c = ',' then '.' else c))

/-- The numeric normalizer `conv_num` (src/extractors.py lines 447-455) and
`MondelezExtractor._conv_num` (lines 861-866), which behave identically on
strings: replace separators, parse as a float, and return `0.0` when the
parse fails. -/
def convNum (s : String) : Rat := (pyFloat? (sepReplace s)).getD 0

/-- Python `str.upper()` per character: ASCII letters plus the accented
letters occurring in this repository's marker vocabulary; any other
character is unchanged. -/
def pyUpperChar (c : Char) : Char :=
  if c.isLower then c.toUpper
  else match c with
    | 'á' => 'Á' | 'à' => 'À' | 'â' => 'Â' | 'ã' => 'Ã' | 'ç' => 'Ç'
    | 'é' => 'É' | 'ê' => 'Ê' | 'í' => 'Í' | 'ó' => 'Ó' | 'ô' => 'Ô'
    | 'õ' => 'Õ' | 'ú' => 'Ú' | 'ü' => 'Ü'
    | d => d

/-- Python `str.lower()` per character (same character repertoire as
`pyUpperChar`). -/
def pyLowerChar (c : Char) : Char :=
  if c.isUpper then c.toLower
  else match c with
    | 'Á' => 'á' | 'À' => 'à' | 'Â' => 'â' | 'Ã' => 'ã' | 'Ç' => 'ç'
    | 'É' => 'é' | 'Ê' => 'ê' | 'Í' => 'í' | 'Ó' => 'ó' | 'Ô' => 'ô'
    | 'Õ' => 'õ' | 'Ú' => 'ú' | 'Ü' => 'ü'
    | d => d

/-- ASCII letter, the class `[a-zA-Z]`. -/
def isAsciiAlpha (c : Char) : Bool :=
  ('a' ≤ c && c ≤ 'z') || ('A' ≤ c && c ≤ 'Z')

/-- Uppercase ASCII letter, the class `[A-Z]`. -/
def isUpperAZ (c : Char) : Bool := 'A' ≤ c && c ≤ 'Z'

/-- Python `\w` word character on the inputs at hand: ASCII alphanumerics,
underscore, the accented Portuguese letters, and the ordinal indicators. -/
def isWordChar (c : Char) : Bool :=
  c.isAlphanum || c = '_' || c = 'º' || c = 'ª' ||
  pyUpperChar c ≠ c || pyLowerChar c ≠ c

/-- The matches of `re.findall(r'\b[A-Z]{3,}\b', linha)`
(src/extractors.py line 494): exactly the maximal word-character runs that
consist entirely of uppercase ASCII letters and have length at least 3
(a shorter uppercase prefix of a longer word run fails the trailing `\b`). -/
def descWords (cs : List Char) : List (List Char) :=
  (runsBy isWordChar cs).filter (fun r => decide (3 ≤ r.length) && r.all isUpperAZ)

/-- Description recovered by `_clean_garbled_line`:
`' '.join(desc_words) if desc_words else ''` (line 495). -/
def garbledDesc (s : String) : String := String.mk (joinSp (descWords s.data))

/-- Digit runs of the line after deleting letters and periods:
`re.findall(r'\d+', re.sub(r'[a-zA-Z\.]', ' ', linha))` (lines 498-501). -/
def garbledNumbers (s : String) : List String :=
  (runsBy isDigitC (s.data.map
    (fun c => if isAsciiAlpha c || c = '.' then ' ' else c))).map String.mk

/-- The digit-length classification loop of `_clean_garbled_line`
(lines 504-517): for each digit run in order, a 13-digit run fills the EAN
slot, a 6-digit run fills the code slot, a 2-digit run (or a nonzero
1-digit run) fills the quantity slot, each slot only on its first hit.
State is `(ean, code, qty)`. -/
def classifyNums : String × String × String → List String → String × String × String
  | st, [] => st
  | (ean, code, qty), n :: rest =>
    if n.length = 13 ∧ ean = "" then classifyNums (n, code, qty) rest
    else if n.length = 6 ∧ code = "" then classifyNums (ean, n, qty) rest
    else if n.length = 2 ∧ qty = "" then classifyNums (ean, code, n) rest
    else if n.length = 1 ∧ qty = "" ∧ 0 < digitsVal n.data then
      classifyNums (ean, code, n) rest
    else classifyNums (ean, code, qty) rest

/-- The `(ean, code, qty)` triple `_clean_garbled_line` extracts from a
line. -/
def garbledClass (s : String) : String × String × String :=
  classifyNums ("", "", "") (garbledNumbers s)

/-- The monetary-token recovery of `_clean_garbled_line` (lines 519-530):
delete ASCII letters, split on whitespace, reduce each item to its digits
and commas, and keep the items that still contain a comma and are longer
than 3 characters. -/
def potentialValores (s : String) : List String :=
  ((pyWords (s.data.filter (fun c => !isAsciiAlpha c))).map
    (fun it => it.filter (fun c => isDigitC c || c = ','))).filterMap
    (fun ci => if ci.contains ',' ∧ 3 < ci.length then some (String.mk ci) else none)

/-- The final `valores` list of `_clean_garbled_line` (lines 507, 519-536):
comma-bearing tokens when the line has a comma and any survive the
filter, otherwise — when at least 5 digit runs exist — two placeholders
built from the last two digit runs. -/
def garbledValores (s : String) : List String :=
  let numbers := garbledNumbers s
  let valores := if containsSub s "," then potentialValores s else []
  if valores = [] ∧ 5 ≤ numbers.length then
    [numbers.getD (numbers.length - 2) "" ++ ",00",
     numbers.getD (numbers.length - 1) "" ++ ",00"]
  else valores

/-- The garbled-line reconstructor `MondelezExtractor._clean_garbled_line`
(src/extractors.py lines 487-549): when EAN, code, description and quantity
were all recovered, synthesize the canonical row (with real monetary values
when at least two were found, fixed placeholders otherwise); otherwise
return the line unchanged. -/
def cleanGarbledLine (s : String) : String :=
  let desc := garbledDesc s
  let valores := garbledValores s
  let ean := (garbledClass s).1
  let code := (garbledClass s).2.1
  let qty := (garbledClass s).2.2
  if ean ≠ "" ∧ code ≠ "" ∧ desc ≠ "" ∧ qty ≠ "" then
    if 2 ≤ valores.length then
      ean ++ " " ++ code ++ " " ++ desc ++ " " ++ qty ++ " UN 1 UN 0,00 0,00 " ++
        valores.getD (valores.length - 2) "" ++ " " ++
        valores.getD (valores.length - 2) "" ++ " " ++
        valores.getD (valores.length - 1) ""
    else
      ean ++ " " ++ code ++ " " ++ desc ++ " " ++ qty ++ " UN 1 UN 0,00 0,00 " ++
        "10,00" ++ " " ++ "10,00" ++ " " ++ "100,00"
  else s

/-! ### Data model -/

/-- One purchase-order header, the dict built at src/extractors.py
lines 318-330 / 334-346 and `MondelezExtractor._novo_pedido_dict`
(lines 851-859). -/
structure Pedido where
  numeroPedido : String
  fornecedor : String
  cnpjFornecedor : String
  cliente : String
  cnpjCliente : String
  enderecoEntrega : String
  cidadeEntrega : String
  dataLimiteEntrega : String
  condicaoFrete : String
  dataEmissao : String
  valorTotal : String
deriving DecidableEq, Repr

/-- A fresh order record with the given number and all optional fields
empty. -/
def novoPedido (numero : String) : Pedido :=
  { numeroPedido := numero, fornecedor := "", cnpjFornecedor := "", cliente := "",
    cnpjCliente := "", enderecoEntrega := "", cidadeEntrega := "",
    dataLimiteEntrega := "", condicaoFrete := "", dataEmissao := "", valorTotal := "" }

/-- One product line item, the dict built at src/extractors.py
lines 783-792 / 797-806 (all values are strings during the scan). -/
structure Produto where
  numeroPedido : String
  codigoFornecedor : String
  valorUnit : String
  quantidade : String
  embalagem : String
  sequencia : String
  descricao : String
  ean : String
deriving DecidableEq, Repr

/-- The parsing context threaded through a scan: emitted orders and
products, the open order, the open product, and the inside-product-section
flag. -/
structure ScanState where
  pedidos : List Pedido
  produtos : List Produto
  pedido : Option Pedido
  produto : Option Produto
  inSec : Bool
deriving DecidableEq, Repr

/-- The initial parsing context (src/extractors.py lines 296-301 and
622-627). -/
def initState : ScanState :=
  { pedidos := [], produtos := [], pedido := none, produto := none, inSec := false }

/-! ### Regular-expression scanners used by the header extractors -/

/-- Python `re.search` for a pattern beginning with a literal: scan for each
occurrence of `lit`, in order, and return the first continuation success.
Mirrors the regex engine trying every start position. -/
def searchAfterLit (lit : List Char) (k : List Char → Option α) : List Char → Option α
  | [] => if lit.isPrefixOf ([] : List Char) then k [] else none
  | c :: cs =>
    match (if lit.isPrefixOf (c :: cs) then k ((c :: cs).drop lit.length) else none) with
    | some r => some r
    | none => searchAfterLit lit k cs

/-- The continuation `\s+(C+)` for a character class `C` containing no
whitespace: at least one space, then a nonempty maximal run of `C`. -/
def spacesThenRun (cls : Char → Bool) (cs : List Char) : Option String :=
  if (cs.takeWhile isPySpace).isEmpty then none
  else
    let r := (cs.dropWhile isPySpace).takeWhile cls
    if r.isEmpty then none else some (String.mk r)

/-- Python `re.search(lit + r'\s+(C+)', s)`, returning the group. -/
def afterLitRun? (lit : String) (cls : Char → Bool) (s : String) : Option String :=
  searchAfterLit lit.data (spacesThenRun cls) s.data

/-- The continuation `.+?\s+(C+)`: a lazy nonempty gap, then `\s+(C+)` at the
earliest position that succeeds. -/
def lazySpacesRun (cls : Char → Bool) : List Char → Option String
  | [] => none
  | _ :: rest =>
    match spacesThenRun cls rest with
    | some g => some g
    | none => lazySpacesRun cls rest

/-- The characters of the class `[\d\/]`. -/
def isDigitSlash (c : Char) : Bool := isDigitC c || c = '/'

/-- The characters of the class `[\d\.,]` / `[\d\.\,]`. -/
def isMoneyChar (c : Char) : Bool := isDigitC c || c = '.' || c = ','

/-- The characters of the class `[\d\.\-\/]`. -/
def isCnpjChar (c : Char) : Bool := isDigitC c || c = '.' || c = '-' || c = '/'

/-- Python `str.replace(pat, rep)` (all occurrences, left to right,
non-overlapping); the fuel starts at the string length, enough for the
nonempty patterns used here since every step consumes at least one
character. -/
def replaceAllAux (pat rep : List Char) : Nat → List Char → List Char
  | 0, cs => cs
  | _ + 1, [] => []
  | fuel + 1, c :: cs =>
    if pat ≠ [] ∧ pat.isPrefixOf (c :: cs) then
      rep ++ replaceAllAux pat rep fuel ((c :: cs).drop pat.length)
    else c :: replaceAllAux pat rep fuel cs

/-- Python `s.replace(pat, rep)`. -/
def replaceAll (s pat rep : String) : String :=
  String.mk (replaceAllAux pat.data rep.data s.data.length s.data)

/-! ### RedeBiz extractor (`RedeBizExtractor._process_redebiz_text`) -/

/-- The order number captured by
`re.search(r'PEDIDO DE COMPRAS\s+(\S+)', linha_limpa)`
(src/extractors.py line 309). -/
def rbPedidoNum? (s : String) : Option String :=
  searchAfterLit "PEDIDO DE COMPRAS".data
    (spacesThenRun (fun c => !isPySpace c)) s.data

/-- Group 0 of `re.search(r'R\. Social SUPERMERCADO JB[^\n]*?LTDA', linha)`
(line 362): the literal head, the lazily shortest gap, and the literal
`LTDA`; later literal-head occurrences are tried if no `LTDA` follows. -/
def clienteJB? (s : String) : Option String :=
  searchAfterLit "R. Social SUPERMERCADO JB".data (fun rest =>
    match subFind? "LTDA".data rest with
    | some i =>
      some (String.mk ("R. Social SUPERMERCADO JB".data ++ rest.take i ++ "LTDA".data))
    | none => none) s.data

/-- The two groups of `re.search(r'CNPJ\s+([-\d]{2,4})\s+([\d\.\/]{10,18})',
linha)` (line 369), the inverted-CNPJ form: after `CNPJ` and spaces, a
maximal `[-\d]` run of length 2-4 followed by whitespace (a longer run can
never match, as every shorter greedy attempt is followed by another class
character), then a `[\d\.\/]` run of at least 10 characters, of which the
greedy quantifier takes at most 18. -/
def cnpjInvertRB? (s : String) : Option (String × String) :=
  searchAfterLit "CNPJ".data (fun rest =>
    if (rest.takeWhile isPySpace).isEmpty then none
    else
      let r1 := rest.dropWhile isPySpace
      let g1 := r1.takeWhile (fun c => c = '-' || isDigitC c)
      let r2 := r1.drop g1.length
      if 2 ≤ g1.length ∧ g1.length ≤ 4 ∧ ¬(r2.takeWhile isPySpace).isEmpty then
        let g2r := (r2.dropWhile isPySpace).takeWhile (fun c => isDigitC c || c = '.' || c = '/')
        if 10 ≤ g2r.length then some (String.mk g1, String.mk (g2r.take 18)) else none
      else none) s.data

/-- Python `re.search(r'\d+,\d+', s)` as a Boolean: some digit run is
immediately followed by a comma and a digit. -/
def decCommaAux : List Char → Bool
  | [] => false
  | c :: cs =>
    (isDigitC c &&
      (match cs.dropWhile isDigitC with
       | ',' :: d :: _ => isDigitC d
       | _ => false)) || decCommaAux cs

/-- Whether the line contains a decimal-comma number (`\d+,\d+`). -/
def hasDecimalComma (s : String) : Bool := decCommaAux s.data

/-- RedeBiz header rule 1 (src/extractors.py lines 355-364): on a line with
`R. Social` and `REDE BIZ`, set the supplier name when the full literal is
present and the client name from the `SUPERMERCADO JB ... LTDA` match. -/
def hdrSocialRB (p0 : Pedido) (l : String) : Pedido :=
  if containsSub l "R. Social" && containsSub l "REDE BIZ" then
    let pa :=
      if containsSub l "REDE BIZ SERVICOS E DISTRIBUICAO DE PRO" then
        { p0 with fornecedor := "REDE BIZ SERVICOS E DISTRIBUICAO" }
      else p0
    match clienteJB? l with
    | some g0 => { pa with cliente := replaceAll g0 "R. Social " "" }
    | none => pa
  else p0

/-- RedeBiz header rule 2 (lines 366-378): client CNPJ on a CNPJ line
without `REDE BIZ` — inverted form first, plain form as fallback. -/
def hdrCnpjClienteRB (p1 : Pedido) (l : String) : Pedido :=
  if containsSub l "CNPJ" && !containsSub l "REDE BIZ" then
    match cnpjInvertRB? l with
    | some (g1, g2) => { p1 with cnpjCliente := g2 ++ g1 }
    | none =>
      match afterLitRun? "CNPJ" isCnpjChar l with
      | some g => { p1 with cnpjCliente := g }
      | none => p1
  else p1

/-- RedeBiz header rule 3 (lines 380-384): supplier CNPJ on a CNPJ line with
`REDE BIZ`. -/
def hdrCnpjFornecedorRB (p2 : Pedido) (l : String) : Pedido :=
  if containsSub l "CNPJ" && containsSub l "REDE BIZ" then
    match afterLitRun? "CNPJ" isCnpjChar l with
    | some g => { p2 with cnpjFornecedor := g }
    | none => p2
  else p2

/-- RedeBiz header rule 4 (lines 386-389): delivery deadline. -/
def hdrDataLimiteRB (p3 : Pedido) (l : String) : Pedido :=
  if containsSub l "Data limite para entrega" then
    match afterLitRun? "Data limite para entrega" isDigitSlash l with
    | some g => { p3 with dataLimiteEntrega := g }
    | none => p3
  else p3

/-- RedeBiz header rule 5 (lines 391-394): freight condition, keyed on
`Condi` + `o do frete` (the accented middle is skipped by the source). -/
def hdrFreteRB (p4 : Pedido) (l : String) : Pedido :=
  if containsSub l "Condi" && containsSub l "o do frete" then
    match afterLitRun? "o do frete" isWordChar l with
    | some g => { p4 with condicaoFrete := g }
    | none => p4
  else p4

/-- RedeBiz header rule 6 (lines 396-399): issue date, via
`Data da emiss.+?\s+([\d\/]+)`. -/
def hdrEmissaoRB (p5 : Pedido) (l : String) : Pedido :=
  if containsSub l "Data da emiss" then
    match searchAfterLit "Data da emiss".data (lazySpacesRun isDigitSlash) l.data with
    | some g => { p5 with dataEmissao := g }
    | none => p5
  else p5

/-- RedeBiz header rule 7 (lines 401-404): order total. -/
def hdrValorTotalRB (p6 : Pedido) (l : String) : Pedido :=
  if containsSub l "Valor total do pedido" then
    match afterLitRun? "Valor total do pedido" isMoneyChar l with
    | some g => { p6 with valorTotal := g }
    | none => p6
  else p6

/-- The header-field rules of the RedeBiz scan (src/extractors.py
lines 355-404), applied in source order to every line belonging to the open
order. -/
def updateHeaderRB (p0 : Pedido) (l : String) : Pedido :=
  hdrValorTotalRB (hdrEmissaoRB (hdrFreteRB (hdrDataLimiteRB (hdrCnpjFornecedorRB
    (hdrCnpjClienteRB (hdrSocialRB p0 l) l) l) l) l) l) l

/-- End-of-section sealing of the open product in the RedeBiz scan: the
product is emitted only when its supplier-code field is a nonempty string
(`if current_produto and current_produto.get('Código Fornecedor')`,
src/extractors.py lines 415, 423, 430). -/
def sealProdutoRB : Option Produto → List Produto
  | some p => if p.codigoFornecedor ≠ "" then [p] else []
  | none => []

/-- One line of the RedeBiz scan (src/extractors.py lines 303-427): strip
the line; an order-start marker seals the open order when the number
changes (the same number is a page-break continuation); otherwise, with an
order open, apply the header rules, then the product-section transitions
(section start on the column-header line; section end on a `TOTAIS` line
with a decimal number while inside, or on `DADOS ADICIONAIS` / `ADVERT`). -/
def redebizStep (st : ScanState) (linha : String) : ScanState :=
  let l := pyStrip linha
  if containsSub l "PEDIDO DE COMPRAS" then
    let num := (rbPedidoNum? l).getD ""
    match st.pedido with
    | some p =>
      if p.numeroPedido ≠ num then
        { st with
            pedidos := st.pedidos ++ [p]
            pedido := some (novoPedido num)
            inSec := false }
      else st
    | none => { st with pedido := some (novoPedido num), inSec := false }
  else
    match st.pedido with
    | none => st
    | some p =>
      let p1 := updateHeaderRB p l
      if containsSub l "Cod Forn" && containsSub l "Seq" && containsSub l "Produtos" then
        { st with pedido := some p1, inSec := true }
      else if st.inSec && containsSub l "TOTAIS" && hasDecimalComma l then
        { st with
            pedido := some p1
            produtos := st.produtos ++ sealProdutoRB st.produto
            produto := none
            inSec := false }
      else if containsSub l "DADOS ADICIONAIS" || containsSub l "ADVERT" then
        { st with
            pedido := some p1
            produtos := st.produtos ++ sealProdutoRB st.produto
            produto := none
            inSec := false }
      else { st with pedido := some p1 }

/-- End-of-stream sealing of the RedeBiz scan (src/extractors.py
lines 429-433): the open product only with a nonempty supplier code, the
open order always.  Returns (orders, products). -/
def redebizFinish (st : ScanState) : List Pedido × List Produto :=
  (st.pedidos ++ st.pedido.toList, st.produtos ++ sealProdutoRB st.produto)

/-- The whole RedeBiz scan over a line sequence. -/
def redebizProcess (linhas : List String) : List Pedido × List Produto :=
  redebizFinish (linhas.foldl redebizStep initState)

/-- The header fold: the value of the open order after the given lines have
been processed by the RedeBiz header rules (each line stripped first). -/
def rbHeaderFold (p : Pedido) (ls : List String) : Pedido :=
  ls.foldl (fun q l => updateHeaderRB q (pyStrip l)) p

/-! ### Mondelez extractor (`MondelezExtractor._process_text`) -/

/-- Python `s.upper()`. -/
def pyUpper (s : String) : String := String.mk (s.data.map pyUpperChar)

/-- The literal hard-stop phrases of the Mondelez line normalizer
(src/extractors.py lines 638-642). -/
def hardTerms : List String :=
  ["DADOS DO COD", "DADOS DO CÓD", "DADOS COMERCIAIS",
   "DADOS PARA FATURAMENTO", "RAZÃO SOCIAL:", "RAZAO SOCIAL:",
   "SUPERUS", "PÁGINA:", "PAGINA:", "COD/NOME", "COD/ NOME", "DADOS DO"]

/-- One pass of the hard-term cut loop (lines 644-648): the state is the
pair (linha_limpa, upper_line); the term is looked up in the uppercase
shadow, the visible line is truncated at that index and stripped, and the
shadow is truncated without stripping — exactly the source's bookkeeping. -/
def hardCutStep (st : List Char × List Char) (term : String) : List Char × List Char :=
  match subFind? term.data st.2 with
  | some i => (pyStripL (st.1.take i), st.2.take i)
  | none => st

/-- The full hard-term loop, starting from the line and its uppercase
image. -/
def hardCutPair (cs : List Char) : List Char × List Char :=
  hardTerms.foldl hardCutStep (cs, cs.map pyUpperChar)

/-- The visible line after the hard-term loop. -/
def hardCut (cs : List Char) : List Char := (hardCutPair cs).1

/-- The trigger patterns of the normalizer's regex fallback (lines 651-655);
all are literals, matched case-insensitively. -/
def triggerList : List String :=
  ["Usuário:", "Emissão:", "Fornecedor:", "Substituição", "Data Entrega:",
   "Data Fat:", "Número de Registros", "Valor Total", "Vendedor", "Comprador",
   "Direção"]

/-- Case-insensitive first-occurrence index of `pat` in `cs` (both sides
lowered), the `re.IGNORECASE` literal search. -/
def findCI? (pat : String) (cs : List Char) : Option Nat :=
  subFind? (pat.data.map pyLowerChar) (cs.map pyLowerChar)

/-- Index of the leftmost match of the trigger alternation, if any:
`re.split(pattern, linha, maxsplit=1)` keeps the text before this index,
and only the start index of the leftmost match matters for that prefix. -/
def triggerIdx? (cs : List Char) : Option Nat :=
  (triggerList.filterMap (fun t => findCI? t cs)).min?

/-- The trigger cut (line 657): keep the prefix before the leftmost trigger
match and strip it; with no match the line is only stripped. -/
def triggerCut (cs : List Char) : List Char :=
  match triggerIdx? cs with
  | some i => pyStripL (cs.take i)
  | none => pyStripL cs

/-- The Mondelez line normalizer (src/extractors.py lines 630-657):
whitespace collapsing, hard-stop phrase truncation, regex trigger
truncation. -/
def normalizeMz (linha : String) : String :=
  String.mk (triggerCut (hardCut (collapseWs linha).data))

/-- The ordered alternatives of the order-marker pattern
`(?:PEDIDO DE COMPRAS|Número do Pedido|Pedido|Nº|Numero)[:\s]+(\d+)`
(line 661). -/
def pedidoAlts : List String :=
  ["PEDIDO DE COMPRAS", "Número do Pedido", "Pedido", "Nº", "Numero"]

/-- Case-insensitive literal prefix test. -/
def isPrefixCI (pat : String) (cs : List Char) : Bool :=
  (pat.data.map pyLowerChar).isPrefixOf (cs.map pyLowerChar)

/-- Try the marker pattern at the start of `cs`: an alternative (in order),
then `[:\s]+`, then `(\d+)`; returns the captured digits and the suffix
after the match. -/
def pedidoTryAlts : List String → List Char → Option (String × List Char)
  | [], _ => none
  | a :: rest, cs =>
    match (if isPrefixCI a cs then
        let afterLit := cs.drop a.data.length
        let sep := afterLit.takeWhile (fun c => c = ':' || isPySpace c)
        let afterSep := afterLit.dropWhile (fun c => c = ':' || isPySpace c)
        let ds := afterSep.takeWhile isDigitC
        if sep ≠ [] ∧ ds ≠ [] then some (String.mk ds, afterSep.dropWhile isDigitC)
        else none
      else none) with
    | some r => some r
    | none => pedidoTryAlts rest cs

/-- `re.finditer` of the marker pattern: all non-overlapping candidate
numbers, scanning left to right.  The fuel starts at the string length;
every iteration consumes at least one character, so it never runs out. -/
def pedidoScanAux : Nat → List Char → List String
  | 0, _ => []
  | _ + 1, [] => []
  | fuel + 1, c :: cs =>
    match pedidoTryAlts pedidoAlts (c :: cs) with
    | some (cand, rest) => cand :: pedidoScanAux fuel rest
    | none => pedidoScanAux fuel cs

/-- The candidate order numbers found on a line, in order (line 661). -/
def pedidoCandidates (s : String) : List String := pedidoScanAux s.data.length s.data

/-- The candidate filter and open/reseal logic of the marker loop
(lines 663-684): candidates are processed in order; invalid ones (at most
2 digits, or a recent calendar year) are skipped; a candidate equal to the
open order's number is a continuation and scanning proceeds; a different
valid candidate seals the open order and opens a new one, stopping the scan
(`break`); with no order open, a valid candidate opens the first order and
stops.  Returns the open order, the emitted orders, and whether a new order
was opened (which resets the in-section flag). -/
def applyPedidoLoop (cur : Option Pedido) (peds : List Pedido) :
    List String → Option Pedido × List Pedido × Bool
  | [] => (cur, peds, false)
  | cand :: rest =>
    if 2 < cand.length ∧ cand ∉ ["2023", "2024", "2025"] then
      match cur with
      | some p =>
        if p.numeroPedido ≠ cand then (some (novoPedido cand), peds ++ [p], true)
        else applyPedidoLoop cur peds rest
      | none => (some (novoPedido cand), peds, true)
    else applyPedidoLoop cur peds rest

/-- The continuation `\s+(.+)` (greedy to the end of the line): at least one
space, then the nonempty rest; when only whitespace remains and there are
at least two spaces, backtracking leaves a single-space group. -/
def spacesThenRest (rest : List Char) : Option String :=
  let sp := rest.takeWhile isPySpace
  let after := rest.dropWhile isPySpace
  if sp.isEmpty then none
  else if after ≠ [] then some (String.mk after)
  else if 2 ≤ sp.length then some " "
  else none

/-- Mondelez header rule 1 (lines 690-697): on an `R. Social` line, the
supplier name for a `REDE BIZ` line when the supplier is still empty,
otherwise the client name (everything after `R. Social`, stripped) when the
client is still empty. -/
def hdrSocialMz (p : Pedido) (l : String) : Pedido :=
  if containsSub l "R. Social" then
    if containsSub (pyUpper l) "REDE BIZ" ∧ p.fornecedor = "" then
      { p with fornecedor := "REDE BIZ SERVICOS E DISTRIBUICAO" }
    else if p.cliente = "" then
      match searchAfterLit "R. Social".data spacesThenRest l.data with
      | some g => { p with cliente := pyStrip g }
      | none => p
    else p
  else p

/-- Whether the full CNPJ pattern `\d{2}\.\d{3}\.\d{3}\/\d{4}-\d{2}` matches
at the start of `cs`. -/
def isCnpjFullAt (cs : List Char) : Bool :=
  match cs with
  | a :: b :: '.' :: c :: d :: e :: '.' :: f :: g :: h :: '/' :: i :: j :: k :: m :: '-' :: n :: o :: _ =>
    [a, b, c, d, e, f, g, h, i, j, k, m, n, o].all isDigitC
  | _ => false

/-- First match of the full CNPJ pattern (line 701, `cnpjs[0]`). -/
def cnpjFull? : List Char → Option String
  | [] => none
  | c :: cs =>
    if isCnpjFullAt (c :: cs) then some (String.mk ((c :: cs).take 18))
    else cnpjFull? cs

/-- The two groups of the Mondelez inverted-CNPJ pattern
`CNPJ\s+-(\d{2})\s+([\d\.\/]+)` (line 708). -/
def cnpjInvertMz? (s : String) : Option (String × String) :=
  searchAfterLit "CNPJ".data (fun rest =>
    if (rest.takeWhile isPySpace).isEmpty then none
    else
      match rest.dropWhile isPySpace with
      | '-' :: d1 :: d2 :: r2 =>
        if isDigitC d1 && isDigitC d2 then
          if (r2.takeWhile isPySpace).isEmpty then none
          else
            let g2 := (r2.dropWhile isPySpace).takeWhile
              (fun c => isDigitC c || c = '.' || c = '/')
            if g2.isEmpty then none else some (String.mk [d1, d2], String.mk g2)
        else none
      | _ => none) s.data

/-- Mondelez header rule 2 (lines 700-710): on a CNPJ line, a full-format
CNPJ goes to the supplier on a `REDE BIZ` line and to the client otherwise;
failing that, the inverted form is reassembled as `corpo-sufixo` for the
client. -/
def hdrCnpjMz (p : Pedido) (l : String) : Pedido :=
  if containsSub l "CNPJ" then
    match cnpjFull? l.data with
    | some g =>
      if containsSub l "REDE BIZ" then { p with cnpjFornecedor := g }
      else { p with cnpjCliente := g }
    | none =>
      match cnpjInvertMz? l with
      | some (g1, g2) => { p with cnpjCliente := g2 ++ "-" ++ g1 }
      | none => p
  else p

/-- Mondelez header rule 3 (lines 712-714): delivery deadline. -/
def hdrDataLimiteMz (p : Pedido) (l : String) : Pedido :=
  if containsSub l "Data limite para entrega" then
    match afterLitRun? "Data limite para entrega" isDigitSlash l with
    | some g => { p with dataLimiteEntrega := g }
    | none => p
  else p

/-- Mondelez header rule 4 (lines 716-718): freight condition,
`Condição do frete\s+(.+)` stripped. -/
def hdrCondFreteMz (p : Pedido) (l : String) : Pedido :=
  if containsSub l "Condição do frete" then
    match searchAfterLit "Condição do frete".data spacesThenRest l.data with
    | some g => { p with condicaoFrete := pyStrip g }
    | none => p
  else p

/-- Mondelez header rule 5 (lines 720-722): issue date. -/
def hdrEmissaoMz (p : Pedido) (l : String) : Pedido :=
  if containsSub l "Data da emissão" then
    match afterLitRun? "Data da emissão" isDigitSlash l with
    | some g => { p with dataEmissao := g }
    | none => p
  else p

/-- Mondelez header rule 6 (lines 724-726): order total. -/
def hdrValorTotalMz (p : Pedido) (l : String) : Pedido :=
  if containsSub l "Valor total do pedido" then
    match afterLitRun? "Valor total do pedido" isMoneyChar l with
    | some g => { p with valorTotal := g }
    | none => p
  else p

/-- The Mondelez header rules (lines 690-726), in source order. -/
def updateHeaderMz (p : Pedido) (l : String) : Pedido :=
  hdrValorTotalMz (hdrEmissaoMz (hdrCondFreteMz (hdrDataLimiteMz
    (hdrCnpjMz (hdrSocialMz p l) l) l) l) l) l

/-! ### The Mondelez row matchers -/

/-- The groups of the smart row pattern (line 757): leading number,
optional second number, description, quantity, unit symbol, first
decimal-comma number of the tail, and trailing number. -/
structure SmartGroups where
  g1 : String
  g2 : Option String
  g3 : String
  g4 : String
  g5 : String
  g6 : String
  g7 : String
deriving DecidableEq, Repr

/-- The groups of the format-B pattern (line 761). -/
structure FormatBGroups where
  g1 : String
  g2 : String
  g3 : String
  g4 : String
  g5 : String
  g6 : String
  g7 : String
deriving DecidableEq, Repr

/-- The unit-symbol alternation `(UN|CX|PC|KG|LT)` tried at the head of the
input, returning the symbol and the rest. -/
def unitAt? : List Char → Option (String × List Char)
  | a :: b :: rest =>
    if (a, b) ∈ [('U', 'N'), ('C', 'X'), ('P', 'C'), ('K', 'G'), ('L', 'T')] then
      some (String.mk [a, b], rest)
    else none
  | _ => none

/-- The money tail `(\d+,\d+)\s+[\d,\.]+\s+([\d,\.]+)$` tried at a fixed
position (all runs greedy; the classes share no characters with whitespace,
so greediness needs no backtracking). -/
def smartMoneyAt (cs : List Char) : Option (String × String) :=
  let d1 := cs.takeWhile isDigitC
  if d1.isEmpty then none
  else match cs.dropWhile isDigitC with
    | ',' :: r1 =>
      let d2 := r1.takeWhile isDigitC
      if d2.isEmpty then none
      else
        let r2 := r1.dropWhile isDigitC
        if (r2.takeWhile isPySpace).isEmpty then none
        else
          let r3 := r2.dropWhile isPySpace
          let m1 := r3.takeWhile isMoneyChar
          if m1.isEmpty then none
          else
            let r4 := r3.dropWhile isMoneyChar
            if (r4.takeWhile isPySpace).isEmpty then none
            else
              let r5 := r4.dropWhile isPySpace
              let m2 := r5.takeWhile isMoneyChar
              if m2.isEmpty ∨ r5.dropWhile isMoneyChar ≠ [] then none
              else some (String.mk (d1 ++ ',' :: d2), String.mk m2)
    | _ => none

/-- The lazy `.*?` scan in front of the money tail: the earliest matching
position wins. -/
def smartTail : List Char → Option (String × String)
  | [] => none
  | c :: cs =>
    match smartMoneyAt (c :: cs) with
    | some r => some r
    | none => smartTail cs

/-- The part after the lazy description: `\s+(\d+)\s+(UN|CX|PC|KG|LT)`
followed by the money tail; returns (quantity, unit, money groups). -/
def smartAfterDesc (rest : List Char) : Option (String × String × String × String) :=
  if (rest.takeWhile isPySpace).isEmpty then none
  else
    let r1 := rest.dropWhile isPySpace
    let qty := r1.takeWhile isDigitC
    if qty.isEmpty then none
    else
      let r2 := r1.dropWhile isDigitC
      if (r2.takeWhile isPySpace).isEmpty then none
      else
        match unitAt? (r2.dropWhile isPySpace) with
        | some (u, r3) =>
          match smartTail r3 with
          | some (g6, g7) => some (String.mk qty, u, g6, g7)
          | none => none
        | none => none

/-- The lazy description scan `(.+?)` with full backtracking: the description
grows one character at a time, and the shortest one for which the whole
remainder matches wins.  `acc` holds the reversed description so far. -/
def smartDescLoop (acc : List Char) :
    List Char → Option (String × String × String × String × String)
  | [] => none
  | c :: rest =>
    match smartAfterDesc rest with
    | some (qty, u, g6, g7) => some (String.mk (acc.reverse ++ [c]), qty, u, g6, g7)
    | none => smartDescLoop (c :: acc) rest

/-- The generalized smart row pattern (src/extractors.py line 757):
`^\s*(\d+)\s+(?:(\d+)\s+)?(.+?)\s+(\d+)\s+(UN|CX|PC|KG|LT).*?(\d+,\d+)\s+[\d,\.]+\s+([\d,\.]+)$`
with Python semantics: the greedy optional second number participates when
the remainder can still match and is given up otherwise; the description is
lazily shortest.  Lines fed to the matcher have collapsed whitespace, so
the greedy `\s+` runs need no backtracking. -/
def matchSmart (s : String) : Option SmartGroups :=
  let cs := s.data.dropWhile isPySpace
  let g1 := cs.takeWhile isDigitC
  if g1.isEmpty then none
  else
    let r1 := cs.dropWhile isDigitC
    if (r1.takeWhile isPySpace).isEmpty then none
    else
      let r2 := r1.dropWhile isPySpace
      let g2 := r2.takeWhile isDigitC
      let withG2 : Option SmartGroups :=
        if g2.isEmpty then none
        else
          let r3 := r2.dropWhile isDigitC
          if (r3.takeWhile isPySpace).isEmpty then none
          else
            match smartDescLoop [] (r3.dropWhile isPySpace) with
            | some (d, qty, u, g6, g7) =>
              some ⟨String.mk g1, some (String.mk g2), d, qty, u, g6, g7⟩
            | none => none
      match withG2 with
      | some g => some g
      | none =>
        match smartDescLoop [] r2 with
        | some (d, qty, u, g6, g7) => some ⟨String.mk g1, none, d, qty, u, g6, g7⟩
        | none => none

/-- The tail of format B at a fixed `.*?` split (line 761):
`\s+([\d\.,]+)\s+([\d\.,]+)\s+([\d\.,]+)\s+(UN|CX|PC|KG|LT)\s+(\d+)\s+(.+)$`. -/
def formatBTailAt (cs : List Char) : Option (String × String × String × String × String × String) :=
  if (cs.takeWhile isPySpace).isEmpty then none
  else
    let r1 := cs.dropWhile isPySpace
    let a := r1.takeWhile isMoneyChar
    if a.isEmpty then none
    else
      let r2 := r1.dropWhile isMoneyChar
      if (r2.takeWhile isPySpace).isEmpty then none
      else
        let r3 := r2.dropWhile isPySpace
        let b := r3.takeWhile isMoneyChar
        if b.isEmpty then none
        else
          let r4 := r3.dropWhile isMoneyChar
          if (r4.takeWhile isPySpace).isEmpty then none
          else
            let r5 := r4.dropWhile isPySpace
            let c := r5.takeWhile isMoneyChar
            if c.isEmpty then none
            else
              let r6 := r5.dropWhile isMoneyChar
              if (r6.takeWhile isPySpace).isEmpty then none
              else
                match unitAt? (r6.dropWhile isPySpace) with
                | some (u, r7) =>
                  if (r7.takeWhile isPySpace).isEmpty then none
                  else
                    let r8 := r7.dropWhile isPySpace
                    let sq := r8.takeWhile isDigitC
                    if sq.isEmpty then none
                    else
                      let r9 := r8.dropWhile isDigitC
                      if (r9.takeWhile isPySpace).isEmpty then none
                      else
                        let d := r9.dropWhile isPySpace
                        if d.isEmpty then none
                        else some (String.mk a, String.mk b, String.mk c, u,
                          String.mk sq, String.mk d)
                | none => none

/-- The lazy `.*?` scan for format B's tail. -/
def formatBLoop : List Char → Option (String × String × String × String × String × String)
  | [] => none
  | c :: cs =>
    match formatBTailAt (c :: cs) with
    | some r => some r
    | none => formatBLoop cs

/-- The fixed-width legacy pattern (src/extractors.py line 761):
`^(\d{6})\s+.*?\s+([\d\.,]+)\s+([\d\.,]+)\s+([\d\.,]+)\s+(UN|CX|PC|KG|LT)\s+(\d+)\s+(.+)$`
on whitespace-collapsed lines. -/
def matchFormatB (s : String) : Option FormatBGroups :=
  let cs := s.data
  let g1 := cs.take 6
  if g1.length = 6 ∧ g1.all isDigitC ∧ ¬((cs.drop 6).takeWhile isPySpace).isEmpty then
    match formatBLoop ((cs.drop 6).dropWhile isPySpace) with
    | some (a, b, c, u, sq, d) => some ⟨String.mk g1, a, b, c, u, sq, d⟩
    | none => none
  else none

/-- EAN/code classification of a smart match (lines 767-781): with two
captured numbers the first is the EAN and the second the supplier code;
with one, more than 7 digits makes it the EAN (code empty), otherwise it is
the supplier code (EAN empty). -/
def smartClassify (n1 : String) (n2 : Option String) : String × String :=
  match n2 with
  | some s =>
    if n1 ≠ "" ∧ s ≠ "" then (n1, s)
    else if n1 ≠ "" then (if 7 < n1.length then (n1, "") else ("", n1))
    else ("", "")
  | none =>
    if n1 ≠ "" then (if 7 < n1.length then (n1, "") else ("", n1))
    else ("", "")

/-- The product record built from a smart match (lines 783-792). -/
def mkSmartProduto (numeroPedido : String) (g : SmartGroups) : Produto :=
  { numeroPedido := numeroPedido
    codigoFornecedor := (smartClassify g.g1 g.g2).2
    valorUnit := g.g6
    quantidade := g.g4
    embalagem := g.g5
    sequencia := "0"
    descricao := pyStrip g.g3
    ean := (smartClassify g.g1 g.g2).1 }

/-- The product record built from a format-B match (lines 797-806). -/
def mkFormatBProduto (numeroPedido : String) (g : FormatBGroups) : Produto :=
  { numeroPedido := numeroPedido
    codigoFornecedor := g.g1
    valorUnit := g.g3
    quantidade := g.g4
    embalagem := g.g5
    sequencia := g.g6
    descricao := pyStrip g.g7
    ean := "" }

/-! ### The Mondelez scan -/

/-- Section-start detection (lines 730-734). -/
def secStartMz (l : String) : Bool :=
  (containsSub l "Cod" && containsSub l "Prod") ||
  (containsSub l "Cod" && containsSub l "Forn") ||
  (containsSub l "Codigo" && containsSub l "Descricao")

/-- Section-end detection while inside the product section (line 738). -/
def secEndMz (l : String) : Bool :=
  containsSub l "TOTAIS" || containsSub l "DADOS ADICIONAIS" || containsSub l "Total:"

/-- Repeated in-section column-header detection (line 745). -/
def secHeaderRepeatMz (l : String) : Bool :=
  containsSub l "Cod Forn" || containsSub l "Valor Unit"

/-- Whether the line starts with a digit (`re.match(r'^\d', linha)`). -/
def startsWithDigit (l : String) : Bool :=
  match l.data with
  | c :: _ => isDigitC c
  | [] => false

/-- The group of `EANs?:\s*([\d,\s]+)` after an `EAN` literal: the optional
`s`, the colon, then the maximal run of digits, commas and whitespace; the
greedy `\s*` takes the run's leading spaces, and when the run is all
whitespace backtracking leaves a single-space group. -/
def eanAfter (rest : List Char) : Option String :=
  let cont := fun (r : List Char) =>
    let run := r.takeWhile (fun c => isDigitC c || c = ',' || isPySpace c)
    if run.isEmpty then none
    else
      let afterSp := run.dropWhile isPySpace
      if afterSp.isEmpty then some " " else some (String.mk afterSp)
  match rest with
  | 's' :: ':' :: r => cont r
  | ':' :: r => cont r
  | _ => none

/-- The EAN-list capture `re.search(r'EANs?:\s*([\d,\s]+)', linha)`
(line 811). -/
def eanGroup? (s : String) : Option String :=
  searchAfterLit "EAN".data eanAfter s.data

/-- The footer/header fragments blocked from description continuation
(lines 816-820), matched against the uppercased line. -/
def blockedTerms : List String :=
  ["DADOS", "TOTAL", "PÁGINA", "PAGINA", "SUPERUS", "COD/NOME", "CODIGO FORNECEDOR",
   "QUANTIDADE DE PEÇAS", "DATA DE ENTREGA", "PRAZO", "E-MAIL", "FRETE",
   "TRANSPORTADORA", "DATA DE VENCIMENTO", "TIPO DE TROCA"]

/-- The fragments ignored for description continuation (line 822), matched
case-sensitively. -/
def ignoredTerms : List String :=
  ["Bairro", "Cidade", "CNPJ", "Endereço", "Telefone", "Inscrição", "Pedido", "CNPJ"]

/-- The continuation handling for a line matching no row pattern while a
product is open inside the section (lines 808-828): an `EAN` line assigns
the parsed EAN list; otherwise a line longer than 3 characters that does
not start with a digit and hits neither blocklist is appended to the
description with a single space. -/
def mzContinuation (p : Produto) (l : String) : Produto :=
  if containsSub l "EAN" then
    match eanGroup? l with
    | some g => { p with ean := pyStrip g }
    | none => p
  else if 3 < l.length ∧ startsWithDigit l = false then
    if blockedTerms.any (fun b => containsSub (pyUpper l) b) ||
       ignoredTerms.any (fun x => containsSub l x) then p
    else { p with descricao := p.descricao ++ " " ++ l }
  else p

/-- One line of the Mondelez scan (src/extractors.py lines 629-828):
normalize, run the marker loop, then with an order open apply the header
rules, the product-section transitions, the garbled-line reconstruction and
the two row matchers, and finally the continuation handling.
`mondelezStepCore` is the part after line normalization. -/
def mondelezStepCore (st : ScanState) (l : String) : ScanState :=
  let scan := applyPedidoLoop st.pedido st.pedidos (pedidoCandidates l)
  let cur1 := scan.1
  let peds1 := scan.2.1
  let inSec0 := if scan.2.2 then false else st.inSec
  match cur1 with
  | none => { st with pedidos := peds1, pedido := none, inSec := inSec0 }
  | some ped0 =>
    let ped1 := updateHeaderMz ped0 l
    if secStartMz l then
      { pedidos := peds1, produtos := st.produtos, pedido := some ped1,
        produto := st.produto, inSec := true }
    else if inSec0 && secEndMz l then
      { pedidos := peds1, produtos := st.produtos ++ st.produto.toList,
        pedido := some ped1, produto := none, inSec := false }
    else if inSec0 && secHeaderRepeatMz l then
      { pedidos := peds1, produtos := st.produtos, pedido := some ped1,
        produto := st.produto, inSec := inSec0 }
    else
      let lp := cleanGarbledLine l
      match matchSmart lp with
      | some g =>
        { pedidos := peds1, produtos := st.produtos ++ st.produto.toList,
          pedido := some ped1, produto := some (mkSmartProduto ped1.numeroPedido g),
          inSec := true }
      | none =>
        match matchFormatB lp with
        | some g =>
          { pedidos := peds1, produtos := st.produtos ++ st.produto.toList,
            pedido := some ped1, produto := some (mkFormatBProduto ped1.numeroPedido g),
            inSec := true }
        | none =>
          match st.produto with
          | some p =>
            if inSec0 then
              { pedidos := peds1, produtos := st.produtos, pedido := some ped1,
                produto := some (mzContinuation p l), inSec := inSec0 }
            else
              { pedidos := peds1, produtos := st.produtos, pedido := some ped1,
                produto := st.produto, inSec := inSec0 }
          | none =>
            { pedidos := peds1, produtos := st.produtos, pedido := some ped1,
              produto := st.produto, inSec := inSec0 }

/-- One line of the Mondelez scan: normalization followed by the core. -/
def mondelezStep (st : ScanState) (linha : String) : ScanState :=
  mondelezStepCore st (normalizeMz linha)

/-- End-of-stream sealing of the Mondelez scan (src/extractors.py
lines 830-831): the open product is appended unconditionally, the open
order is appended.  Returns (orders, products). -/
def mondelezFinish (st : ScanState) : List Pedido × List Produto :=
  (st.pedidos ++ st.pedido.toList, st.produtos ++ st.produto.toList)

/-- The whole Mondelez scan over a line sequence. -/
def mondelezProcess (linhas : List String) : List Pedido × List Produto :=
  mondelezFinish (linhas.foldl mondelezStep initState)

/-- The Mondelez header rules folded over a line stream, each line passed
through the normalizer first (the per-line `updateHeaderMz` of
lines 690-726). -/
def mzHeaderFold (p : Pedido) (ls : List String) : Pedido :=
  ls.foldl (fun q l => updateHeaderMz q (normalizeMz l)) p

/-! ### Output numeric conversion -/

/-- `pd.to_numeric(col, errors='coerce').fillna(0).astype('int64')` on one
cell (src/extractors.py lines 471 and 842): parse as a number, truncate
toward zero, and use 0 for an unparsable value. -/
def pdToNumericInt (s : String) : Int :=
  match pyFloatParse? s with
  | none => 0
  | some f =>
    let numer := f.ipVal * 10 ^ f.fpLen + f.fpVal
    let v : Nat :=
      if f.exNeg then numer / 10 ^ (f.fpLen + f.exVal)
      else numer * 10 ^ f.exVal / 10 ^ f.fpLen
    if f.neg then -(v : Int) else (v : Int)

/-- An emitted Mondelez product row after the dataframe conversions
(lines 835-845): quantity and unit price as numbers, the supplier code as
an integer, the `Sequência` column dropped, and the EAN kept as its raw
string. -/
structure MRow where
  numeroPedido : String
  codigoFornecedor : Int
  valorUnit : Rat
  quantidade : Rat
  embalagem : String
  descricao : String
  ean : String
deriving DecidableEq, Repr

/-- The per-row form of the Mondelez output conversion (lines 836-845). -/
def mondelezFinalizeRow (p : Produto) : MRow :=
  { numeroPedido := p.numeroPedido
    codigoFornecedor := pdToNumericInt p.codigoFornecedor
    valorUnit := convNum p.valorUnit
    quantidade := convNum p.quantidade
    embalagem := p.embalagem
    descricao := p.descricao
    ean := p.ean }

/-- The emitted Mondelez product rows for a line sequence. -/
def mondelezOutputRows (linhas : List String) : List MRow :=
  (mondelezProcess linhas).2.map mondelezFinalizeRow

/-- An emitted RedeBiz product row after the dataframe conversions
(lines 447-475): quantity and unit price as numbers, and both identifier
columns — supplier code and EAN — as integers. -/
structure RRow where
  numeroPedido : String
  codigoFornecedor : Int
  valorUnit : Rat
  quantidade : Rat
  embalagem : String
  descricao : String
  ean : Int
deriving DecidableEq, Repr

/-- A line is clean when its only whitespace characters are single internal
ASCII spaces — exactly the shape of the whitespace collapser's output. -/
def CleanL (cs : List Char) : Prop :=
  (∀ c ∈ cs, isPySpace c = true → c = ' ') ∧
  List.Chain' (fun a b => ¬(a = ' ' ∧ b = ' ')) cs ∧
  (∀ c, cs.head? = some c → c ≠ ' ') ∧
  (∀ c, cs.getLast? = some c → c ≠ ' ')

/-- The line sequence of end-to-end scenario A. -/
def scenarioA : List String :=
  ["PEDIDO DE COMPRAS 4500012345", "CNPJ 12.345.678/0001-90",
   "Cod Forn Seq Produtos", "100001  5,00  10,00  2,00  UN  1  ARROZ BRANCO 5KG",
   "TOTAIS 10,00"]

/-- The open product of the C7 witness run. -/
def c7P : Produto :=
  { numeroPedido := "777", codigoFornecedor := "123456", valorUnit := "5,00",
    quantidade := "10", embalagem := "UN", sequencia := "0", descricao := "CAFE",
    ean := "" }

/-- The parsing context of the C7 witness run: one open order, one open
product, inside the product section. -/
def c7St : ScanState :=
  { pedidos := [], produtos := [], pedido := some (novoPedido "777"),
    produto := some c7P, inSec := true }

/-- The line sequence of the C8 counterexample run. -/
def c8Lines : List String :=
  ["PEDIDO DE COMPRAS 999", "7891234567890 CHOCOLATE 10 UN 1 UN 5,00 5,00 50,00"]

/-- The line sequence of the C9 counterexample run. -/
def c9Lines : List String :=
  ["PEDIDO DE COMPRAS 888", "Cod Forn Produtos",
   "123456 CAFE 10 UN 1 UN 5,00 5,00 50,00", "EANs: 789, 790"]

/-- The per-row form of the RedeBiz output conversion (lines 447-475). -/
def redebizFinalizeRow (p : Produto) : RRow :=
  { numeroPedido := p.numeroPedido
    codigoFornecedor := pdToNumericInt p.codigoFornecedor
    valorUnit := convNum p.valorUnit
    quantidade := convNum p.quantidade
    embalagem := p.embalagem
    descricao := p.descricao
    ean := pdToNumericInt p.ean }

/-! ### Lemmas about the digit-length classification -/

lemma classifyNums_ean_ne (ns : List String) :
    ∀ st : String × String × String,
      (st.1 ≠ "" ∨ ∃ n ∈ ns, n.length = 13) → (classifyNums st ns).1 ≠ "" := by
  induction ns with
  | nil =>
    rintro st (h | ⟨n, hn, _⟩)
    · exact h
    · cases hn
  | cons n rest ih =>
    rintro ⟨ean, code, qty⟩ h
    simp only [classifyNums]
    split_ifs with h1 h2 h3 h4
    · refine ih _ (Or.inl ?_)
      show n ≠ ""
      intro hn
      rw [hn] at h1
      simp at h1
    all_goals
      refine ih _ ?_
      rcases h with h | ⟨m, hm, hlen⟩
      · exact Or.inl h
      · rcases List.mem_cons.mp hm with rfl | hm
        · exact Or.inl (fun he => h1 ⟨hlen, he⟩)
        · exact Or.inr ⟨m, hm, hlen⟩

lemma classifyNums_code_ne (ns : List String) :
    ∀ st : String × String × String,
      (st.2.1 ≠ "" ∨ ∃ n ∈ ns, n.length = 6) → (classifyNums st ns).2.1 ≠ "" := by
  induction ns with
  | nil =>
    rintro st (h | ⟨n, hn, _⟩)
    · exact h
    · cases hn
  | cons n rest ih =>
    rintro ⟨ean, code, qty⟩ h
    simp only [classifyNums]
    split_ifs with h1 h2 h3 h4
    case pos =>
      refine ih _ ?_
      rcases h with h | ⟨m, hm, hlen⟩
      · exact Or.inl h
      · rcases List.mem_cons.mp hm with rfl | hm
        · exact absurd h1.1 (by rw [hlen]; decide)
        · exact Or.inr ⟨m, hm, hlen⟩
    case pos =>
      refine ih _ (Or.inl ?_)
      show n ≠ ""
      intro hn
      rw [hn] at h2
      simp at h2
    all_goals
      refine ih _ ?_
      rcases h with h | ⟨m, hm, hlen⟩
      · exact Or.inl h
      · rcases List.mem_cons.mp hm with rfl | hm
        · exact Or.inl (fun he => h2 ⟨hlen, he⟩)
        · exact Or.inr ⟨m, hm, hlen⟩

lemma classifyNums_qty_ne (ns : List String) :
    ∀ st : String × String × String,
      (st.2.2 ≠ "" ∨ ∃ n ∈ ns, n.length = 2 ∨ (n.length = 1 ∧ 0 < digitsVal n.data)) →
      (classifyNums st ns).2.2 ≠ "" := by
  induction ns with
  | nil =>
    rintro st (h | ⟨n, hn, _⟩)
    · exact h
    · cases hn
  | cons n rest ih =>
    rintro ⟨ean, code, qty⟩ h
    simp only [classifyNums]
    split_ifs with h1 h2 h3 h4
    case pos =>
      refine ih _ ?_
      rcases h with h | ⟨m, hm, hlen⟩
      · exact Or.inl h
      · rcases List.mem_cons.mp hm with rfl | hm
        · rcases hlen with hl | ⟨hl, _⟩ <;> rw [h1.1] at hl <;> cases hl
        · exact Or.inr ⟨m, hm, hlen⟩
    case pos =>
      refine ih _ ?_
      rcases h with h | ⟨m, hm, hlen⟩
      · exact Or.inl h
      · rcases List.mem_cons.mp hm with rfl | hm
        · rcases hlen with hl | ⟨hl, _⟩ <;> rw [h2.1] at hl <;> cases hl
        · exact Or.inr ⟨m, hm, hlen⟩
    case pos =>
      refine ih _ (Or.inl ?_)
      show n ≠ ""
      intro hn
      rw [hn] at h3
      simp at h3
    case pos =>
      refine ih _ (Or.inl ?_)
      show n ≠ ""
      intro hn
      rw [hn] at h4
      simp at h4
    · refine ih _ ?_
      rcases h with h | ⟨m, hm, hlen⟩
      · exact Or.inl h
      · rcases List.mem_cons.mp hm with rfl | hm
        · refine Or.inl (fun he => ?_)
          rcases hlen with hl | ⟨hl, hp⟩
          · exact h3 ⟨hl, he⟩
          · exact h4 ⟨hl, he, hp⟩
        · exact Or.inr ⟨m, hm, hlen⟩

lemma classifyNums_ean_eq_empty (ns : List String) :
    ∀ st : String × String × String, st.1 = "" → (∀ n ∈ ns, n.length ≠ 13) →
      (classifyNums st ns).1 = "" := by
  induction ns with
  | nil => intro st h _; exact h
  | cons n rest ih =>
    rintro ⟨ean, code, qty⟩ h hall
    simp only [classifyNums]
    split_ifs with h1 h2 h3 h4
    · exact absurd h1.1 (hall n (List.mem_cons_self n rest))
    all_goals exact ih _ h (fun m hm => hall m (List.mem_cons_of_mem n hm))

lemma garbledDesc_ne_empty (s : String) (h : descWords s.data ≠ []) :
    garbledDesc s ≠ "" := by
  unfold garbledDesc
  obtain ⟨w, ws, hw⟩ := List.exists_cons_of_ne_nil h
  have hmem : w ∈ descWords s.data := by rw [hw]; exact List.mem_cons_self w ws
  have hpred := (List.mem_filter.mp hmem).2
  have hwne : w ≠ [] := by
    intro hnil
    rw [hnil] at hpred
    simp at hpred
  rw [hw]
  intro hcontra
  have : joinSp (w :: ws) = [] := by
    have := congrArg String.data hcontra
    simpa using this
  cases ws with
  | nil => exact hwne (by simpa [joinSp] using this)
  | cons w2 ws2 =>
    have hj : joinSp (w :: w2 :: ws2) = w ++ ' ' :: joinSp (w2 :: ws2) := rfl
    rw [hj] at this
    rcases List.append_eq_nil.mp this with ⟨-, h2⟩
    cases h2

/-! ### Claim theorems: C3 and C4 -/

/-- C3: the garbled-line reconstructor.  First part: if the line (after
letter/period removal) contains a 13-digit run, a 6-digit run, at least one
maximal run of 3+ uppercase letters, and a 1-2-digit run usable as quantity
(2 digits, or 1 nonzero digit), then the result is the canonical row: EAN,
code, description, quantity, "UN", "1", "UN", two "0,00" placeholders, then
the monetary values.  Second part: if the line contains no 13-digit run, it
is returned unchanged. -/
theorem c3_garbled_reconstruction :
    (∀ s : String,
      (∃ n ∈ garbledNumbers s, n.length = 13) →
      (∃ n ∈ garbledNumbers s, n.length = 6) →
      descWords s.data ≠ [] →
      (∃ n ∈ garbledNumbers s, n.length = 2 ∨ (n.length = 1 ∧ 0 < digitsVal n.data)) →
      ∃ v1 v2 v3,
        cleanGarbledLine s =
          (garbledClass s).1 ++ " " ++ (garbledClass s).2.1 ++ " " ++ garbledDesc s ++
            " " ++ (garbledClass s).2.2 ++ " UN 1 UN 0,00 0,00 " ++
            v1 ++ " " ++ v2 ++ " " ++ v3 ∧ v1 = v2) ∧
    (∀ s : String, (∀ n ∈ garbledNumbers s, n.length ≠ 13) → cleanGarbledLine s = s) := by
  constructor
  · intro s h13 h6 hdw hq
    have he : (garbledClass s).1 ≠ "" := classifyNums_ean_ne _ _ (Or.inr h13)
    have hc : (garbledClass s).2.1 ≠ "" := classifyNums_code_ne _ _ (Or.inr h6)
    have hqy : (garbledClass s).2.2 ≠ "" := classifyNums_qty_ne _ _ (Or.inr hq)
    have hd : garbledDesc s ≠ "" := garbledDesc_ne_empty s hdw
    unfold cleanGarbledLine
    rw [if_pos ⟨he, hc, hd, hqy⟩]
    by_cases hv : 2 ≤ (garbledValores s).length
    · rw [if_pos hv]
      exact ⟨_, _, _, rfl, rfl⟩
    · rw [if_neg hv]
      exact ⟨"10,00", "10,00", "100,00", rfl, rfl⟩
  · intro s hall
    have he : (garbledClass s).1 = "" := classifyNums_ean_eq_empty _ _ rfl hall
    unfold cleanGarbledLine
    rw [if_neg]
    intro hcon
    exact hcon.1 he

/-- Witness for C3, first part: a concrete line containing a 13-digit EAN
run, a 6-digit code run, an uppercase description and a 2-digit quantity is
reconstructed into the canonical row. -/
theorem c3_garbled_reconstruction_witness :
    ∃ v1 v2 v3,
      cleanGarbledLine "7891008121001 123456 CHOCO 48 7,00 336,00" =
        (garbledClass "7891008121001 123456 CHOCO 48 7,00 336,00").1 ++ " " ++
          (garbledClass "7891008121001 123456 CHOCO 48 7,00 336,00").2.1 ++ " " ++
          garbledDesc "7891008121001 123456 CHOCO 48 7,00 336,00" ++ " " ++
          (garbledClass "7891008121001 123456 CHOCO 48 7,00 336,00").2.2 ++
          " UN 1 UN 0,00 0,00 " ++ v1 ++ " " ++ v2 ++ " " ++ v3 ∧ v1 = v2 :=
  c3_garbled_reconstruction.1 "7891008121001 123456 CHOCO 48 7,00 336,00"
    (by decide) (by decide) (by decide) (by decide)

/-- C4: the numeric normalizer maps "1.234,56" to 1234.56, "6,97" to 6.97,
and any string whose separator-replaced form does not parse as a float to 0;
it is a total function, so no error is ever raised. -/
theorem c4_numeric_normalizer :
    convNum "1.234,56" = 123456 / 100 ∧ convNum "6,97" = 697 / 100 ∧
    (∀ s : String, pyFloatParse? (sepReplace s) = none → convNum s = 0) := by
  refine ⟨?_, ?_, ?_⟩
  · have h : pyFloatParse? (sepReplace "1.234,56") = some ⟨false, 1234, 56, 2, false, 0⟩ := by
      decide
    simp only [convNum, pyFloat?, h, Option.map_some, Option.getD_some]
    norm_num [floatVal]
  · have h : pyFloatParse? (sepReplace "6,97") = some ⟨false, 6, 97, 2, false, 0⟩ := by
      decide
    simp only [convNum, pyFloat?, h, Option.map_some, Option.getD_some]
    norm_num [floatVal]
  · intro s h
    simp [convNum, pyFloat?, h]

/-- Witness for C4: the unparsable string "abc" is mapped to 0. -/
theorem c4_numeric_normalizer_witness : convNum "abc" = 0 :=
  c4_numeric_normalizer.2.2 "abc" (by decide)

/-! ### Lemmas about the RedeBiz scan -/

lemma hdrSocialRB_numero (p : Pedido) (l : String) :
    (hdrSocialRB p l).numeroPedido = p.numeroPedido := by
  simp only [hdrSocialRB]
  repeat' split
  all_goals rfl

lemma hdrCnpjClienteRB_numero (p : Pedido) (l : String) :
    (hdrCnpjClienteRB p l).numeroPedido = p.numeroPedido := by
  simp only [hdrCnpjClienteRB]
  repeat' split
  all_goals rfl

lemma hdrCnpjFornecedorRB_numero (p : Pedido) (l : String) :
    (hdrCnpjFornecedorRB p l).numeroPedido = p.numeroPedido := by
  simp only [hdrCnpjFornecedorRB]
  repeat' split
  all_goals rfl

lemma hdrDataLimiteRB_numero (p : Pedido) (l : String) :
    (hdrDataLimiteRB p l).numeroPedido = p.numeroPedido := by
  simp only [hdrDataLimiteRB]
  repeat' split
  all_goals rfl

lemma hdrFreteRB_numero (p : Pedido) (l : String) :
    (hdrFreteRB p l).numeroPedido = p.numeroPedido := by
  simp only [hdrFreteRB]
  repeat' split
  all_goals rfl

lemma hdrEmissaoRB_numero (p : Pedido) (l : String) :
    (hdrEmissaoRB p l).numeroPedido = p.numeroPedido := by
  simp only [hdrEmissaoRB]
  repeat' split
  all_goals rfl

lemma hdrValorTotalRB_numero (p : Pedido) (l : String) :
    (hdrValorTotalRB p l).numeroPedido = p.numeroPedido := by
  simp only [hdrValorTotalRB]
  repeat' split
  all_goals rfl

/-- No header rule ever rewrites the order number of the open order. -/
lemma updateHeaderRB_numero (p : Pedido) (l : String) :
    (updateHeaderRB p l).numeroPedido = p.numeroPedido := by
  unfold updateHeaderRB
  rw [hdrValorTotalRB_numero, hdrEmissaoRB_numero, hdrFreteRB_numero,
    hdrDataLimiteRB_numero, hdrCnpjFornecedorRB_numero, hdrCnpjClienteRB_numero,
    hdrSocialRB_numero]

lemma rbHeaderFold_numero (ls : List String) :
    ∀ p : Pedido, (rbHeaderFold p ls).numeroPedido = p.numeroPedido := by
  induction ls with
  | nil => intro p; rfl
  | cons l ls ih =>
    intro p
    simp only [rbHeaderFold, List.foldl_cons] at *
    rw [ih, updateHeaderRB_numero]

lemma rbHeaderFold_append (p : Pedido) (xs ys : List String) :
    rbHeaderFold p (xs ++ ys) = rbHeaderFold (rbHeaderFold p xs) ys := by
  simp only [rbHeaderFold, List.foldl_append]

/-- A RedeBiz step with no open product leaves the product state and the
emitted products untouched. -/
lemma redebizStep_produto (st : ScanState) (l : String) (h : st.produto = none) :
    (redebizStep st l).produto = none ∧ (redebizStep st l).produtos = st.produtos := by
  unfold redebizStep
  cases hp : st.pedido with
  | none =>
    by_cases hc : containsSub (pyStrip l) "PEDIDO DE COMPRAS" = true <;>
      simp [hc, h, hp]
  | some p =>
    by_cases hc : containsSub (pyStrip l) "PEDIDO DE COMPRAS" = true
    · simp only [hc, if_true, hp]
      split_ifs <;> simp [h]
    · simp only [hc, Bool.false_eq_true, if_false, hp]
      split_ifs <;> simp [h, sealProdutoRB]

lemma redebizFold_produto (linhas : List String) :
    ∀ st : ScanState, st.produto = none →
      (linhas.foldl redebizStep st).produto = none ∧
      (linhas.foldl redebizStep st).produtos = st.produtos := by
  induction linhas with
  | nil => intro st h; exact ⟨h, rfl⟩
  | cons l ls ih =>
    intro st h
    have h1 := redebizStep_produto st l h
    simp only [List.foldl_cons]
    obtain ⟨ha, hb⟩ := ih (redebizStep st l) h1.1
    exact ⟨ha, hb.trans h1.2⟩

/-- A non-marker RedeBiz line with an open order and no open product applies
exactly the header rules to the open order; the emitted lists and the open
product are unchanged, only the in-section flag may move. -/
lemma redebizStep_nonmarker (st : ScanState) (l : String) (p : Pedido)
    (hm : containsSub (pyStrip l) "PEDIDO DE COMPRAS" = false)
    (hp : st.pedido = some p) (hprod : st.produto = none) :
    ∃ b : Bool, redebizStep st l =
      { st with pedido := some (updateHeaderRB p (pyStrip l)), inSec := b } := by
  simp only [redebizStep, hm, Bool.false_eq_true, if_false, hp]
  split_ifs with h1 h2 h3
  · exact ⟨true, rfl⟩
  · exact ⟨false, by simp [hprod, sealProdutoRB]⟩
  · exact ⟨false, by simp [hprod, sealProdutoRB]⟩
  · exact ⟨st.inSec, rfl⟩

lemma redebizFold_nonmarker (ls : List String) :
    ∀ (st : ScanState) (p : Pedido), st.pedido = some p → st.produto = none →
      (∀ l ∈ ls, containsSub (pyStrip l) "PEDIDO DE COMPRAS" = false) →
      ∃ b : Bool, ls.foldl redebizStep st =
        { st with pedido := some (rbHeaderFold p ls), inSec := b } := by
  induction ls with
  | nil =>
    intro st p hp _ _
    refine ⟨st.inSec, ?_⟩
    cases st
    simp only [List.foldl_nil, rbHeaderFold, List.foldl_nil]
    simp_all
  | cons l ls ih =>
    intro st p hp hprod hall
    obtain ⟨b1, hb1⟩ := redebizStep_nonmarker st l p (hall l (List.mem_cons_self l ls)) hp hprod
    simp only [List.foldl_cons, hb1]
    obtain ⟨b2, hb2⟩ := ih { st with pedido := some (updateHeaderRB p (pyStrip l)), inSec := b1 }
      (updateHeaderRB p (pyStrip l)) rfl hprod
      (fun m hm => hall m (List.mem_cons_of_mem l hm))
    refine ⟨b2, ?_⟩
    rw [hb2]
    rfl

/-- A RedeBiz marker line carrying the number of the already-open order is
treated as a continuation: the state is unchanged. -/
lemma redebizStep_marker_same (st : ScanState) (l n : String) (p : Pedido)
    (hm : containsSub (pyStrip l) "PEDIDO DE COMPRAS" = true)
    (hn : rbPedidoNum? (pyStrip l) = some n)
    (hp : st.pedido = some p) (heq : p.numeroPedido = n) :
    redebizStep st l = st := by
  simp only [redebizStep, hm, if_true, hn, Option.getD_some, hp]
  rw [if_neg]
  simp [heq]

/-- A RedeBiz marker line carrying a number different from the open order's
number seals the open order and opens a fresh one. -/
lemma redebizStep_marker_diff (st : ScanState) (l n : String) (p : Pedido)
    (hm : containsSub (pyStrip l) "PEDIDO DE COMPRAS" = true)
    (hn : rbPedidoNum? (pyStrip l) = some n)
    (hp : st.pedido = some p) (hne : p.numeroPedido ≠ n) :
    redebizStep st l =
      { st with
          pedidos := st.pedidos ++ [p]
          pedido := some (novoPedido n)
          inSec := false } := by
  simp only [redebizStep, hm, if_true, hn, Option.getD_some, hp]
  rw [if_pos hne]

/-- A RedeBiz marker line with no order open opens the first order. -/
lemma redebizStep_marker_open (st : ScanState) (l n : String)
    (hm : containsSub (pyStrip l) "PEDIDO DE COMPRAS" = true)
    (hn : rbPedidoNum? (pyStrip l) = some n)
    (hp : st.pedido = none) :
    redebizStep st l = { st with pedido := some (novoPedido n), inSec := false } := by
  simp only [redebizStep, hm, if_true, hn, Option.getD_some, hp]

/-! ### Lemmas about the Mondelez order segmenter -/

lemma hdrSocialMz_numero (p : Pedido) (l : String) :
    (hdrSocialMz p l).numeroPedido = p.numeroPedido := by
  simp only [hdrSocialMz]
  repeat' split
  all_goals rfl

lemma hdrCnpjMz_numero (p : Pedido) (l : String) :
    (hdrCnpjMz p l).numeroPedido = p.numeroPedido := by
  simp only [hdrCnpjMz]
  repeat' split
  all_goals rfl

lemma hdrDataLimiteMz_numero (p : Pedido) (l : String) :
    (hdrDataLimiteMz p l).numeroPedido = p.numeroPedido := by
  simp only [hdrDataLimiteMz]
  repeat' split
  all_goals rfl

lemma hdrCondFreteMz_numero (p : Pedido) (l : String) :
    (hdrCondFreteMz p l).numeroPedido = p.numeroPedido := by
  simp only [hdrCondFreteMz]
  repeat' split
  all_goals rfl

lemma hdrEmissaoMz_numero (p : Pedido) (l : String) :
    (hdrEmissaoMz p l).numeroPedido = p.numeroPedido := by
  simp only [hdrEmissaoMz]
  repeat' split
  all_goals rfl

lemma hdrValorTotalMz_numero (p : Pedido) (l : String) :
    (hdrValorTotalMz p l).numeroPedido = p.numeroPedido := by
  simp only [hdrValorTotalMz]
  repeat' split
  all_goals rfl

/-- No Mondelez header rule ever rewrites the order number of the open
order. -/
lemma updateHeaderMz_numero (p : Pedido) (l : String) :
    (updateHeaderMz p l).numeroPedido = p.numeroPedido := by
  unfold updateHeaderMz
  rw [hdrValorTotalMz_numero, hdrEmissaoMz_numero, hdrCondFreteMz_numero,
    hdrDataLimiteMz_numero, hdrCnpjMz_numero, hdrSocialMz_numero]

lemma mzHeaderFold_numero (ls : List String) :
    ∀ p : Pedido, (mzHeaderFold p ls).numeroPedido = p.numeroPedido := by
  induction ls with
  | nil => intro p; rfl
  | cons l ls ih =>
    intro p
    simp only [mzHeaderFold, List.foldl_cons] at *
    rw [ih, updateHeaderMz_numero]

lemma mzHeaderFold_nil (p : Pedido) : mzHeaderFold p [] = p := rfl

lemma mzHeaderFold_cons (p : Pedido) (l : String) (ls : List String) :
    mzHeaderFold p (l :: ls) = mzHeaderFold (updateHeaderMz p (normalizeMz l)) ls := by
  simp only [mzHeaderFold, List.foldl_cons]

lemma mzHeaderFold_append (p : Pedido) (xs ys : List String) :
    mzHeaderFold p (xs ++ ys) = mzHeaderFold (mzHeaderFold p xs) ys := by
  simp only [mzHeaderFold, List.foldl_append]

/-- The marker loop on no candidates leaves the orders untouched. -/
lemma applyPedidoLoop_nil (cur : Option Pedido) (peds : List Pedido) :
    applyPedidoLoop cur peds [] = (cur, peds, false) := rfl

/-- A valid candidate with no open order opens the first order and stops. -/
lemma applyPedidoLoop_open (peds : List Pedido) (n : String)
    (hv : 2 < n.length ∧ n ∉ ["2023", "2024", "2025"]) (rest : List String) :
    applyPedidoLoop none peds (n :: rest) = (some (novoPedido n), peds, true) := by
  show (if 2 < n.length ∧ n ∉ ["2023", "2024", "2025"] then
      (some (novoPedido n), peds, true)
    else applyPedidoLoop none peds rest) = (some (novoPedido n), peds, true)
  rw [if_pos hv]

/-- A valid candidate equal to the open order number is a continuation. -/
lemma applyPedidoLoop_same (p : Pedido) (peds : List Pedido) (n : String)
    (hv : 2 < n.length ∧ n ∉ ["2023", "2024", "2025"])
    (heq : p.numeroPedido = n) (rest : List String) :
    applyPedidoLoop (some p) peds (n :: rest) = applyPedidoLoop (some p) peds rest := by
  show (if 2 < n.length ∧ n ∉ ["2023", "2024", "2025"] then
      if p.numeroPedido ≠ n then (some (novoPedido n), peds ++ [p], true)
      else applyPedidoLoop (some p) peds rest
    else applyPedidoLoop (some p) peds rest) = applyPedidoLoop (some p) peds rest
  rw [if_pos hv, if_neg (by rw [heq]; exact fun h => h rfl)]

/-- A valid candidate different from the open order number seals the open
order, opens a fresh one and stops. -/
lemma applyPedidoLoop_diff (p : Pedido) (peds : List Pedido) (n : String)
    (hv : 2 < n.length ∧ n ∉ ["2023", "2024", "2025"])
    (hne : p.numeroPedido ≠ n) (rest : List String) :
    applyPedidoLoop (some p) peds (n :: rest) =
      (some (novoPedido n), peds ++ [p], true) := by
  show (if 2 < n.length ∧ n ∉ ["2023", "2024", "2025"] then
      if p.numeroPedido ≠ n then (some (novoPedido n), peds ++ [p], true)
      else applyPedidoLoop (some p) peds rest
    else applyPedidoLoop (some p) peds rest) = (some (novoPedido n), peds ++ [p], true)
  rw [if_pos hv, if_pos hne]

/-- The order components of one Mondelez core step: every branch of the
body copies the marker-loop order list and applies the header rules to the
open order, so the order side is independent of the product side. -/
lemma mondelezStepCore_orders (st : ScanState) (l : String) :
    (mondelezStepCore st l).pedidos =
      (applyPedidoLoop st.pedido st.pedidos (pedidoCandidates l)).2.1 ∧
    (mondelezStepCore st l).pedido =
      ((applyPedidoLoop st.pedido st.pedidos (pedidoCandidates l)).1).map
        (fun p => updateHeaderMz p l) := by
  simp only [mondelezStepCore]
  split
  next hcur =>
    rw [hcur]
    exact ⟨rfl, rfl⟩
  next ped0 hcur =>
    rw [hcur]
    repeat' split
    all_goals exact ⟨rfl, rfl⟩

/-- The order components of one Mondelez scan step. -/
lemma mondelezStep_orders (st : ScanState) (linha : String) :
    (mondelezStep st linha).pedidos =
      (applyPedidoLoop st.pedido st.pedidos (pedidoCandidates (normalizeMz linha))).2.1 ∧
    (mondelezStep st linha).pedido =
      ((applyPedidoLoop st.pedido st.pedidos
          (pedidoCandidates (normalizeMz linha))).1).map
        (fun p => updateHeaderMz p (normalizeMz linha)) :=
  mondelezStepCore_orders st (normalizeMz linha)

/-- Folding the Mondelez step over marker-free lines keeps the emitted
orders and applies exactly the header rules to the open order. -/
lemma mzFold_nocand (ls : List String) :
    ∀ (st : ScanState) (p : Pedido), st.pedido = some p →
      (∀ l ∈ ls, pedidoCandidates (normalizeMz l) = []) →
      (ls.foldl mondelezStep st).pedidos = st.pedidos ∧
      (ls.foldl mondelezStep st).pedido = some (mzHeaderFold p ls) := by
  induction ls with
  | nil =>
    intro st p hp _
    exact ⟨rfl, hp⟩
  | cons l ls ih =>
    intro st p hp hall
    obtain ⟨h1, h2⟩ := mondelezStep_orders st l
    have h1x : (mondelezStep st l).pedidos = st.pedidos := by
      rw [h1, hall l (List.mem_cons_self l ls), applyPedidoLoop_nil]
    have h2x : (mondelezStep st l).pedido =
        some (updateHeaderMz p (normalizeMz l)) := by
      rw [h2, hall l (List.mem_cons_self l ls), applyPedidoLoop_nil, hp]
      rfl
    simp only [List.foldl_cons]
    obtain ⟨ha, hb⟩ := ih (mondelezStep st l) (updateHeaderMz p (normalizeMz l)) h2x
      (fun m hm => hall m (List.mem_cons_of_mem l hm))
    refine ⟨ha.trans h1x, ?_⟩
    rw [hb, mzHeaderFold_cons]

/-! ### Claim theorems: C2 and C5 -/

/-- C2: the order segmenters of both engines.  For a line stream consisting
of a marker line carrying number `n1`, marker-free lines `mid`, a marker
line carrying number `n2`, and marker-free lines `post`: when `n1 = n2`
each scan emits exactly one order — RedeBiz folds the header rules over the
intermediate lines, Mondelez over every line of the stream (the code applies
its header rules to marker lines as well); when `n1 ≠ n2` each scan emits
exactly two orders, the first built from the lines up to the second marker
and the second from the lines from the second marker on, so every header
line lying between the two markers populates the first order only. -/
theorem c2_order_segmenter (m1 m2 : String) (n1 n2 : String) (mid post : List String)
    (hm1 : containsSub (pyStrip m1) "PEDIDO DE COMPRAS" = true)
    (hn1 : rbPedidoNum? (pyStrip m1) = some n1)
    (hm2 : containsSub (pyStrip m2) "PEDIDO DE COMPRAS" = true)
    (hn2 : rbPedidoNum? (pyStrip m2) = some n2)
    (hmid : ∀ l ∈ mid, containsSub (pyStrip l) "PEDIDO DE COMPRAS" = false)
    (hpost : ∀ l ∈ post, containsSub (pyStrip l) "PEDIDO DE COMPRAS" = false)
    (hq1 : pedidoCandidates (normalizeMz m1) = [n1])
    (hq2 : pedidoCandidates (normalizeMz m2) = [n2])
    (hv1 : 2 < n1.length ∧ n1 ∉ ["2023", "2024", "2025"])
    (hv2 : 2 < n2.length ∧ n2 ∉ ["2023", "2024", "2025"])
    (hqmid : ∀ l ∈ mid, pedidoCandidates (normalizeMz l) = [])
    (hqpost : ∀ l ∈ post, pedidoCandidates (normalizeMz l) = []) :
    (n1 = n2 →
      (redebizProcess (m1 :: (mid ++ m2 :: post))).1 =
        [rbHeaderFold (novoPedido n1) (mid ++ post)] ∧
      (mondelezProcess (m1 :: (mid ++ m2 :: post))).1 =
        [mzHeaderFold (novoPedido n1) (m1 :: (mid ++ m2 :: post))]) ∧
    (n1 ≠ n2 →
      (redebizProcess (m1 :: (mid ++ m2 :: post))).1 =
        [rbHeaderFold (novoPedido n1) mid, rbHeaderFold (novoPedido n2) post] ∧
      (mondelezProcess (m1 :: (mid ++ m2 :: post))).1 =
        [mzHeaderFold (novoPedido n1) (m1 :: mid),
         mzHeaderFold (novoPedido n2) (m2 :: post)]) := by
  have hstep1 : redebizStep initState m1 = ⟨[], [], some (novoPedido n1), none, false⟩ := by
    rw [redebizStep_marker_open initState m1 n1 hm1 hn1 rfl]
    rfl
  obtain ⟨b1, hb1⟩ := redebizFold_nonmarker mid
    ⟨[], [], some (novoPedido n1), none, false⟩ (novoPedido n1) rfl rfl hmid
  have hb1x : List.foldl redebizStep ⟨[], [], some (novoPedido n1), none, false⟩ mid =
      ⟨[], [], some (rbHeaderFold (novoPedido n1) mid), none, b1⟩ := hb1
  have hnum1 : (rbHeaderFold (novoPedido n1) mid).numeroPedido = n1 :=
    rbHeaderFold_numero mid (novoPedido n1)
  obtain ⟨g1, g2⟩ := mondelezStep_orders initState m1
  rw [show initState.pedido = none from rfl, show initState.pedidos = [] from rfl,
    hq1, applyPedidoLoop_open [] n1 hv1 []] at g1 g2
  have hA1 : (mondelezStep initState m1).pedidos = [] := g1
  have hA2 : (mondelezStep initState m1).pedido =
      some (mzHeaderFold (novoPedido n1) [m1]) := by
    rw [g2, mzHeaderFold_cons, mzHeaderFold_nil]
    simp only [Option.map_some']
  obtain ⟨hB1, hB2⟩ := mzFold_nocand mid (mondelezStep initState m1)
    (mzHeaderFold (novoPedido n1) [m1]) hA2 hqmid
  have hB1x : (List.foldl mondelezStep (mondelezStep initState m1) mid).pedidos = [] :=
    hB1.trans hA1
  have hB2x : (List.foldl mondelezStep (mondelezStep initState m1) mid).pedido =
      some (mzHeaderFold (novoPedido n1) (m1 :: mid)) := by
    rw [hB2, ← mzHeaderFold_append, List.singleton_append]
  have hnum2 : (mzHeaderFold (novoPedido n1) (m1 :: mid)).numeroPedido = n1 := by
    rw [mzHeaderFold_numero]
    rfl
  have hmzfin : (mondelezProcess (m1 :: (mid ++ m2 :: post))).1 =
      (List.foldl mondelezStep (mondelezStep (List.foldl mondelezStep
        (mondelezStep initState m1) mid) m2) post).pedidos ++
      (List.foldl mondelezStep (mondelezStep (List.foldl mondelezStep
        (mondelezStep initState m1) mid) m2) post).pedido.toList := by
    show (mondelezFinish (List.foldl mondelezStep initState
      (m1 :: (mid ++ m2 :: post)))).1 = _
    rw [List.foldl_cons, List.foldl_append, List.foldl_cons]
    rfl
  obtain ⟨g3, g4⟩ := mondelezStep_orders
    (List.foldl mondelezStep (mondelezStep initState m1) mid) m2
  rw [hq2, hB1x, hB2x] at g3 g4
  constructor
  · intro heq
    subst heq
    constructor
    · unfold redebizProcess
      rw [List.foldl_cons, hstep1, List.foldl_append, hb1x, List.foldl_cons,
        redebizStep_marker_same _ m2 n1 _ hm2 hn2 rfl hnum1]
      obtain ⟨b3, hb3⟩ := redebizFold_nonmarker post
        ⟨[], [], some (rbHeaderFold (novoPedido n1) mid), none, b1⟩
        (rbHeaderFold (novoPedido n1) mid) rfl rfl hpost
      have hb3x : List.foldl redebizStep
          ⟨[], [], some (rbHeaderFold (novoPedido n1) mid), none, b1⟩ post =
          ⟨[], [], some (rbHeaderFold (rbHeaderFold (novoPedido n1) mid) post), none, b3⟩ := hb3
      rw [hb3x, ← rbHeaderFold_append]
      rfl
    · rw [applyPedidoLoop_same _ _ _ hv2 hnum2 [], applyPedidoLoop_nil] at g3 g4
      have g3x : (mondelezStep (List.foldl mondelezStep (mondelezStep initState m1) mid)
          m2).pedidos = [] := g3
      have g4x : (mondelezStep (List.foldl mondelezStep (mondelezStep initState m1) mid)
          m2).pedido = some (mzHeaderFold (mzHeaderFold (novoPedido n1) (m1 :: mid)) [m2]) := by
        rw [g4, mzHeaderFold_cons (mzHeaderFold (novoPedido n1) (m1 :: mid)) m2 [],
          mzHeaderFold_nil]
        simp only [Option.map_some']
      obtain ⟨hC1, hC2⟩ := mzFold_nocand post _
        (mzHeaderFold (mzHeaderFold (novoPedido n1) (m1 :: mid)) [m2]) g4x hqpost
      rw [hmzfin, hC1.trans g3x, hC2, List.nil_append,
        show mzHeaderFold (mzHeaderFold (mzHeaderFold (novoPedido n1) (m1 :: mid)) [m2]) post
          = mzHeaderFold (mzHeaderFold (novoPedido n1) (m1 :: mid)) (m2 :: post) from by
            rw [← mzHeaderFold_append, List.singleton_append],
        show mzHeaderFold (mzHeaderFold (novoPedido n1) (m1 :: mid)) (m2 :: post)
          = mzHeaderFold (novoPedido n1) (m1 :: (mid ++ m2 :: post)) from by
            rw [← mzHeaderFold_append, List.cons_append]]
      rfl
  · intro hne
    constructor
    · unfold redebizProcess
      rw [List.foldl_cons, hstep1, List.foldl_append, hb1x, List.foldl_cons,
        redebizStep_marker_diff _ m2 n2 _ hm2 hn2 rfl (by rw [hnum1]; exact hne)]
      obtain ⟨b3, hb3⟩ := redebizFold_nonmarker post
        ⟨[rbHeaderFold (novoPedido n1) mid], [], some (novoPedido n2), none, false⟩
        (novoPedido n2) rfl rfl hpost
      have hb3x : List.foldl redebizStep
          ⟨[rbHeaderFold (novoPedido n1) mid], [], some (novoPedido n2), none, false⟩ post =
          ⟨[rbHeaderFold (novoPedido n1) mid], [], some (rbHeaderFold (novoPedido n2) post),
            none, b3⟩ := hb3
      show (redebizFinish (List.foldl redebizStep
          ⟨[rbHeaderFold (novoPedido n1) mid], [], some (novoPedido n2), none, false⟩ post)).1 = _
      rw [hb3x]
      rfl
    · rw [applyPedidoLoop_diff _ _ _ hv2 (by rw [hnum2]; exact hne) []] at g3 g4
      have g3x : (mondelezStep (List.foldl mondelezStep (mondelezStep initState m1) mid)
          m2).pedidos = [mzHeaderFold (novoPedido n1) (m1 :: mid)] := g3
      have g4x : (mondelezStep (List.foldl mondelezStep (mondelezStep initState m1) mid)
          m2).pedido = some (mzHeaderFold (novoPedido n2) [m2]) := by
        rw [g4, mzHeaderFold_cons (novoPedido n2) m2 [], mzHeaderFold_nil]
        simp only [Option.map_some']
      obtain ⟨hC1, hC2⟩ := mzFold_nocand post _
        (mzHeaderFold (novoPedido n2) [m2]) g4x hqpost
      rw [hmzfin, hC1.trans g3x, hC2,
        show mzHeaderFold (mzHeaderFold (novoPedido n2) [m2]) post
          = mzHeaderFold (novoPedido n2) (m2 :: post) from by
            rw [← mzHeaderFold_append, List.singleton_append]]
      rfl

/-- Witness for C2: two different marker numbers with one client-CNPJ header
line between them give exactly the two orders in both engines, the CNPJ
attached to the first. -/
theorem c2_order_segmenter_witness :
    (redebizProcess ["PEDIDO DE COMPRAS 111", "CNPJ 12.345.678/0001-90",
        "PEDIDO DE COMPRAS 222"]).1 =
      [rbHeaderFold (novoPedido "111") ["CNPJ 12.345.678/0001-90"],
       rbHeaderFold (novoPedido "222") []] ∧
    (mondelezProcess ["PEDIDO DE COMPRAS 111", "CNPJ 12.345.678/0001-90",
        "PEDIDO DE COMPRAS 222"]).1 =
      [mzHeaderFold (novoPedido "111")
        ["PEDIDO DE COMPRAS 111", "CNPJ 12.345.678/0001-90"],
       mzHeaderFold (novoPedido "222") ["PEDIDO DE COMPRAS 222"]] :=
  (c2_order_segmenter "PEDIDO DE COMPRAS 111" "PEDIDO DE COMPRAS 222" "111" "222"
    ["CNPJ 12.345.678/0001-90"] [] (by decide) (by decide) (by decide) (by decide)
    (by decide) (by decide) (by decide) (by decide) (by decide) (by decide)
    (by decide) (by decide)).2 (by decide)

/-! ### Lemmas about the smart matcher -/

lemma strMk_ne_empty (cs : List Char) (h : cs ≠ []) : String.mk cs ≠ "" := by
  intro hc
  have := congrArg String.data hc
  simp only [String.data] at this
  exact h this

lemma listNeNilOfNotIsEmpty (cs : List Char) (h : ¬cs.isEmpty = true) : cs ≠ [] := by
  intro hn
  rw [hn] at h
  exact h rfl

/-- A smart match always captures a nonempty first number, and its second
number, when present, is nonempty (both are `+`-quantified digit groups). -/
lemma matchSmart_shape (s : String) (g : SmartGroups) (h : matchSmart s = some g) :
    g.g1 ≠ "" ∧ (∀ n2, g.g2 = some n2 → n2 ≠ "") := by
  simp only [matchSmart] at h
  split at h
  · cases h
  · split at h
    · cases h
    · split at h
      · next g0 heq =>
        split at heq
        · cases heq
        · split at heq
          · cases heq
          · split at heq
            · next d qty u g6 g7 hdl =>
              cases heq
              cases h
              refine ⟨strMk_ne_empty _ (listNeNilOfNotIsEmpty _ (by assumption)), ?_⟩
              intro n2 hn2
              injection hn2 with h2
              subst h2
              exact strMk_ne_empty _ (listNeNilOfNotIsEmpty _ (by assumption))
            · cases heq
      · split at h
        · next d qty u g6 g7 hdl =>
          cases h
          refine ⟨strMk_ne_empty _ (listNeNilOfNotIsEmpty _ (by assumption)), ?_⟩
          intro n2 hn2
          cases hn2
        · cases h

/-! ### Claim theorems: C1, C6, C8, C9 -/

/-- Counterexample for C1: on the scenario-A lines neither extractor emits
any ProductLine (the claim asserts exactly one), and no emitted Order
carries the CNPJ in the supplier field (the claim asserts CNPJ Fornecedor
`12.345.678/0001-90`; the code routes a CNPJ line without `REDE BIZ` to the
client field). -/
theorem c1_scenario_a_counterexample :
    (mondelezProcess scenarioA).2.length ≠ 1 ∧
    (redebizProcess scenarioA).2.length ≠ 1 ∧
    (∀ p ∈ (mondelezProcess scenarioA).1, p.cnpjFornecedor ≠ "12.345.678/0001-90") ∧
    (∀ p ∈ (redebizProcess scenarioA).1, p.cnpjFornecedor ≠ "12.345.678/0001-90") := by
  refine ⟨?_, ?_, ?_, ?_⟩ <;> decide

/-- C1 as amended: on the scenario-A lines each extractor emits exactly one
Order, with number `4500012345` and the CNPJ stored in the *client* CNPJ
field, and no ProductLine at all — the RedeBiz scan never creates products,
and in the Mondelez scan the whitespace-collapsed product row matches
neither row pattern. -/
theorem c1_scenario_a :
    mondelezProcess scenarioA =
      ([{ novoPedido "4500012345" with cnpjCliente := "12.345.678/0001-90" }], []) ∧
    redebizProcess scenarioA =
      ([{ novoPedido "4500012345" with cnpjCliente := "12.345.678/0001-90" }], []) := by
  constructor <;> decide

/-- C6: the smart row pattern's identifier classification.  With exactly
one leading number, more than 7 digits stores it as the EAN and leaves the
supplier code empty, otherwise it becomes the supplier code and the EAN is
left empty; with two leading numbers the first is the EAN and the second
the supplier code. -/
theorem c6_smart_id_classification :
    (∀ (s num : String) (g : SmartGroups), matchSmart s = some g → g.g2 = none →
      (mkSmartProduto num g).ean = (if 7 < g.g1.length then g.g1 else "") ∧
      (mkSmartProduto num g).codigoFornecedor = (if 7 < g.g1.length then "" else g.g1)) ∧
    (∀ (s num : String) (g : SmartGroups) (n2 : String), matchSmart s = some g →
      g.g2 = some n2 →
      (mkSmartProduto num g).ean = g.g1 ∧ (mkSmartProduto num g).codigoFornecedor = n2) := by
  constructor
  · intro s num g h h2
    have hne := (matchSmart_shape s g h).1
    simp only [mkSmartProduto, smartClassify, h2, hne, ne_eq, not_false_eq_true, if_true]
    split_ifs <;> simp
  · intro s num g n2 h h2
    have hs := matchSmart_shape s g h
    have hn2 : n2 ≠ "" := hs.2 n2 h2
    simp only [mkSmartProduto, smartClassify, h2]
    rw [if_pos ⟨hs.1, hn2⟩]
    exact ⟨rfl, rfl⟩

/-- Witness for C6: a 13-digit single leading number is classified as the
EAN with an empty supplier code. -/
theorem c6_smart_id_classification_witness :
    (mkSmartProduto "1" ⟨"7891234567890", none, "CHOCOLATE", "10", "UN", "5,00", "50,00"⟩).ean =
      (if 7 < ("7891234567890" : String).length then "7891234567890" else "") ∧
    (mkSmartProduto "1" ⟨"7891234567890", none, "CHOCOLATE", "10", "UN", "5,00", "50,00"⟩).codigoFornecedor =
      (if 7 < ("7891234567890" : String).length then "" else "7891234567890") :=
  c6_smart_id_classification.1 "7891234567890 CHOCOLATE 10 UN 1 UN 5,00 5,00 50,00" "1"
    ⟨"7891234567890", none, "CHOCOLATE", "10", "UN", "5,00", "50,00"⟩ (by decide) rfl

/-- C7: continuation handling.  For any line that, after normalization,
carries no order-marker candidate, no section transition, and matches
neither row pattern, while an order and a ProductLine are open inside the
product section: the scan emits no product and keeps the open ProductLine,
transformed by the continuation rule — a line containing the EAN marker
whose EAN-list pattern matches gets the parsed digits assigned to the EAN
field, and otherwise a line longer than 3 characters that does not start
with a digit and contains no blocked or ignored keyword is appended to the
description, joined by exactly one space. -/
theorem c7_product_continuation (st : ScanState) (linha : String) (ped : Pedido) (p : Produto)
    (hped : st.pedido = some ped) (hprod : st.produto = some p) (hsec : st.inSec = true)
    (hcand : pedidoCandidates (normalizeMz linha) = [])
    (hstart : secStartMz (normalizeMz linha) = false)
    (hend : secEndMz (normalizeMz linha) = false)
    (hhdr : secHeaderRepeatMz (normalizeMz linha) = false)
    (hsm : matchSmart (cleanGarbledLine (normalizeMz linha)) = none)
    (hfb : matchFormatB (cleanGarbledLine (normalizeMz linha)) = none) :
    ((mondelezStep st linha).produtos = st.produtos ∧
     (mondelezStep st linha).produto = some (mzContinuation p (normalizeMz linha))) ∧
    (∀ g, containsSub (normalizeMz linha) "EAN" = true →
      eanGroup? (normalizeMz linha) = some g →
      mzContinuation p (normalizeMz linha) = { p with ean := pyStrip g }) ∧
    (containsSub (normalizeMz linha) "EAN" = false →
      3 < (normalizeMz linha).length → startsWithDigit (normalizeMz linha) = false →
      blockedTerms.any (fun b => containsSub (pyUpper (normalizeMz linha)) b) = false →
      ignoredTerms.any (fun x => containsSub (normalizeMz linha) x) = false →
      mzContinuation p (normalizeMz linha) =
        { p with descricao := p.descricao ++ " " ++ normalizeMz linha }) := by
  have hsteprw : mondelezStep st linha = mondelezStepCore st (normalizeMz linha) := rfl
  rw [hsteprw]
  generalize normalizeMz linha = l at hcand hstart hend hhdr hsm hfb ⊢
  refine ⟨?_, ?_, ?_⟩
  · simp only [mondelezStepCore, hcand, applyPedidoLoop, hped, hsec, hstart, hend, hhdr,
      hsm, hfb, hprod, Bool.false_eq_true, if_false, Bool.and_false, if_true,
      Bool.true_and, Bool.false_and]
    exact ⟨trivial, trivial⟩
  · intro g hE hg
    simp only [mzContinuation, hE, if_true, hg]
  · intro hE hlen hdig hblk hign
    simp only [mzContinuation, hE, Bool.false_eq_true, if_false]
    rw [if_pos ⟨hlen, hdig⟩, if_neg]
    simp [hblk, hign]

/-- Witness for C7: the continuation line "EXTRA VERDE" creates no product
and extends the open ProductLine. -/
theorem c7_product_continuation_witness :
    (mondelezStep c7St "EXTRA VERDE").produtos = c7St.produtos ∧
    (mondelezStep c7St "EXTRA VERDE").produto =
      some (mzContinuation c7P (normalizeMz "EXTRA VERDE")) :=
  (c7_product_continuation c7St "EXTRA VERDE" (novoPedido "777") c7P rfl rfl rfl
    (by decide) (by decide) (by decide) (by decide) (by decide) (by decide)).1

/-- Counterexample for C8: at end of stream the Mondelez scan appends its
still-open ProductLine even though the supplier-code field is empty — the
smart match classified the single 13-digit number as the EAN — so "appended
only if its supplier code field is non-empty" is false for the engine. -/
theorem c8_counterexample :
    (mondelezProcess c8Lines).2.map Produto.codigoFornecedor = [""] ∧
    (mondelezProcess c8Lines).2.length = 1 := by
  constructor <;> decide

/-- C8 as amended: at end of stream the RedeBiz scan appends a still-open
ProductLine only if its supplier code is non-empty, the Mondelez scan
appends it unconditionally, and both append a still-open Order always. -/
theorem c8_end_of_stream_sealing (st : ScanState) :
    (redebizFinish st).1 = st.pedidos ++ st.pedido.toList ∧
    (redebizFinish st).2 = st.produtos ++ (match st.produto with
      | some p => if p.codigoFornecedor ≠ "" then [p] else []
      | none => []) ∧
    (mondelezFinish st).1 = st.pedidos ++ st.pedido.toList ∧
    (mondelezFinish st).2 = st.produtos ++ (match st.produto with
      | some p => [p]
      | none => []) := by
  obtain ⟨peds, prods, ped, prod, sec⟩ := st
  refine ⟨rfl, ?_, rfl, ?_⟩ <;> cases prod <;> rfl

/-- Counterexample for C9: the Mondelez output keeps the EAN column as the
raw text — here the unparsable string "789, 790" — instead of coercing it
to an integer with fallback 0 (only the supplier-code column is coerced). -/
theorem c9_counterexample :
    (mondelezOutputRows c9Lines).map MRow.ean = ["789, 790"] ∧
    pdToNumericInt "789, 790" = 0 ∧ ("789, 790" : String) ≠ "0" := by
  refine ⟨?_, ?_, ?_⟩ <;> decide

/-- C9 as amended: the RedeBiz output coerces both identifier columns
(supplier code and EAN) to integers, the Mondelez output coerces only the
supplier code and emits the EAN as its raw string, and the integer coercion
maps any unparsable value to 0 instead of raising. -/
theorem c9_identifier_coercion :
    (∀ p : Produto,
      (redebizFinalizeRow p).codigoFornecedor = pdToNumericInt p.codigoFornecedor ∧
      (redebizFinalizeRow p).ean = pdToNumericInt p.ean ∧
      (mondelezFinalizeRow p).codigoFornecedor = pdToNumericInt p.codigoFornecedor ∧
      (mondelezFinalizeRow p).ean = p.ean) ∧
    (∀ s : String, pyFloatParse? s = none → pdToNumericInt s = 0) := by
  refine ⟨fun p => ⟨rfl, rfl, rfl, rfl⟩, fun s h => ?_⟩
  simp [pdToNumericInt, h]

/-- Witness for C9 (amended): the unparsable identifier "12.34.56" is
coerced to 0, and a sample product's EAN passes through the Mondelez
finalizer unchanged. -/
theorem c9_identifier_coercion_witness :
    pdToNumericInt "12.34.56" = 0 ∧
    (mondelezFinalizeRow ⟨"1", "123456", "5,00", "10", "UN", "0", "CAFE", "789, 790"⟩).ean =
      "789, 790" :=
  ⟨c9_identifier_coercion.2 "12.34.56" (by decide),
   (c9_identifier_coercion.1 ⟨"1", "123456", "5,00", "10", "UN", "0", "CAFE", "789, 790"⟩).2.2.2⟩

/-- C5: the RedeBiz scan never opens a product line — the open-product slot
stays `none` through the whole fold — so its emitted product list is always
empty and the result carries at most the orders table. -/
theorem c5_redebiz_no_products (linhas : List String) :
    (linhas.foldl redebizStep initState).produto = none ∧
    (redebizProcess linhas).2 = [] := by
  obtain ⟨h1, h2⟩ := redebizFold_produto linhas initState rfl
  refine ⟨h1, ?_⟩
  unfold redebizProcess redebizFinish
  rw [h2, h1]
  rfl

lemma subFind?_ne_nil {pat cs : List Char} (h : subFind? pat cs = none) : pat ≠ [] := by
  intro hp
  subst hp
  cases cs <;> simp [subFind?] at h

lemma subFindAppendNone {pat xs ys : List Char} (h : subFind? pat (xs ++ ys) = none) :
    subFind? pat xs = none ∧ subFind? pat ys = none := by
  induction xs with
  | nil =>
    refine ⟨?_, by simpa using h⟩
    simp only [subFind?]
    rw [if_neg (subFind?_ne_nil (by simpa using h))]
  | cons x xs ih =>
    rw [List.cons_append, subFind?] at h
    split at h
    · cases h
    · next hpre =>
      obtain ⟨h1, h2⟩ := ih (by simpa using h)
      refine ⟨?_, h2⟩
      rw [subFind?, if_neg ?_, h1]
      · rfl
      · intro hc
        exact hpre (List.isPrefixOf_iff_prefix.mpr
          ((List.isPrefixOf_iff_prefix.mp hc).trans ⟨ys, by simp⟩))

lemma subFindTakeNone {pat cs : List Char} (k : Nat) (h : subFind? pat cs = none) :
    subFind? pat (cs.take k) = none :=
  (subFindAppendNone (by rw [List.take_append_drop]; exact h)).1

lemma subFindInfixNone {pat xs ys : List Char} (hinf : xs <:+: ys)
    (h : subFind? pat ys = none) : subFind? pat xs = none := by
  obtain ⟨s, t, rfl⟩ := hinf
  exact (subFindAppendNone (subFindAppendNone (by rwa [List.append_assoc] at h)).2).1

lemma pyStripL_within (cs : List Char) : pyStripL cs <:+: cs :=
  List.IsInfix.trans
    (List.IsPrefix.isInfix (List.rdropWhile_prefix _ _))
    (List.IsSuffix.isInfix (List.dropWhile_suffix _))

lemma subFindSomeTakeNone {pat cs : List Char} {i : Nat} (hp : pat ≠ [])
    (h : subFind? pat cs = some i) : subFind? pat (cs.take i) = none := by
  induction cs generalizing i with
  | nil =>
    simp only [subFind?] at h
    rw [if_neg hp] at h
    cases h
  | cons c cs ih =>
    rw [subFind?] at h
    split at h
    · cases h
      simp only [List.take_zero, subFind?]
      rw [if_neg hp]
    · next hpre =>
      cases hcs : subFind? pat cs with
      | none => rw [hcs] at h; cases h
      | some j =>
        rw [hcs] at h
        simp only [Option.map_some'] at h
        cases h
        rw [List.take_succ_cons, subFind?, if_neg ?_, ih hcs]
        · rfl
        · intro hc
          refine hpre (List.isPrefixOf_iff_prefix.mpr ?_)
          obtain ⟨t, ht⟩ := List.isPrefixOf_iff_prefix.mp hc
          obtain ⟨u, hu⟩ : List.take j cs <+: cs := List.take_prefix j cs
          exact ⟨t ++ u, by rw [← List.append_assoc, ht, List.cons_append, hu]⟩

lemma subFindTakeSome {pat cs : List Char} {k j : Nat} (hp : pat ≠ [])
    (h : subFind? pat (cs.take k) = some j) :
    j < k ∧ ∃ m, subFind? pat cs = some m ∧ m ≤ j := by
  induction cs generalizing k j with
  | nil =>
    rw [List.take_nil, subFind?, if_neg hp] at h
    cases h
  | cons c cs ih =>
    cases k with
    | zero =>
      rw [List.take_zero, subFind?, if_neg hp] at h
      cases h
    | succ k =>
      rw [List.take_succ_cons, subFind?] at h
      split at h
      · next hpre =>
        cases h
        refine ⟨Nat.succ_pos k, 0, ?_, le_refl 0⟩
        rw [subFind?, if_pos]
        obtain ⟨t, ht⟩ := List.isPrefixOf_iff_prefix.mp hpre
        obtain ⟨u, hu⟩ : List.take k cs <+: cs := List.take_prefix k cs
        refine List.isPrefixOf_iff_prefix.mpr ⟨t ++ u, ?_⟩
        rw [← List.append_assoc, ht, List.cons_append, hu]
      · next hpre =>
        cases hcs : subFind? pat (List.take k cs) with
        | none => rw [hcs] at h; cases h
        | some j2 =>
          rw [hcs] at h
          simp only [Option.map_some'] at h
          cases h
          obtain ⟨hlt, m, hm, hle⟩ := ih hcs
          rw [subFind?]
          split
          · exact ⟨by omega, 0, rfl, by omega⟩
          · exact ⟨by omega, m + 1, by rw [hm]; rfl, by omega⟩

/-- Characterization of the accumulator loop with a nonempty pending run. -/
lemma runsByAux_go (p : Char → Bool) (cs : List Char) :
    ∀ acc : List Char, acc ≠ [] → runsByAux p acc cs =
      (acc.reverse ++ cs.takeWhile p) :: runsByAux p [] (cs.dropWhile p) := by
  induction cs with
  | nil =>
    intro acc hacc
    simp [runsByAux, hacc]
  | cons c cs ih =>
    intro acc hacc
    by_cases hpc : p c = true
    · rw [runsByAux, if_pos hpc, ih (c :: acc) (by simp),
        List.takeWhile_cons_of_pos hpc, List.dropWhile_cons_of_pos hpc]
      simp
    · have hpc' : p c = false := by simpa using hpc
      have hrhs : runsByAux p [] (c :: cs) = runsByAux p [] cs := by
        rw [runsByAux, if_neg (by simp [hpc']), if_pos rfl]
      rw [runsByAux, if_neg (by simp [hpc']), if_neg hacc,
        List.takeWhile_cons_of_neg (by simp [hpc']),
        List.dropWhile_cons_of_neg (by simp [hpc']), hrhs]
      simp

lemma runsBy_cons_pos (p : Char → Bool) (c : Char) (cs : List Char) (h : p c = true) :
    runsBy p (c :: cs) = (c :: cs.takeWhile p) :: runsBy p (cs.dropWhile p) := by
  rw [runsBy, runsByAux, if_pos h, runsByAux_go p cs [c] (by simp)]
  rfl

lemma runsBy_cons_neg (p : Char → Bool) (c : Char) (cs : List Char) (h : p c = false) :
    runsBy p (c :: cs) = runsBy p cs := by
  rw [runsBy, runsByAux, if_neg (by simp [h]), if_pos rfl]
  rfl

lemma runsBy_mem_aux (p : Char → Bool) (n : Nat) :
    ∀ cs : List Char, cs.length ≤ n →
      ∀ w ∈ runsBy p cs, w ≠ [] ∧ ∀ c ∈ w, p c = true := by
  induction n with
  | zero =>
    intro cs hlen w hw
    rw [List.length_eq_zero.mp (Nat.le_zero.mp hlen)] at hw
    simp [runsBy, runsByAux] at hw
  | succ n ih =>
    intro cs hlen w hw
    cases cs with
    | nil => simp [runsBy, runsByAux] at hw
    | cons c cs =>
      by_cases hpc : p c = true
      · rw [runsBy_cons_pos p c cs hpc] at hw
        rcases List.mem_cons.mp hw with rfl | hw
        · refine ⟨by simp, ?_⟩
          intro d hd
          rcases List.mem_cons.mp hd with rfl | hd
          · exact hpc
          · exact List.mem_takeWhile_imp hd
        · exact ih (cs.dropWhile p)
            (le_trans ((List.dropWhile_suffix p).sublist.length_le) (by simpa using hlen))
            w hw
      · rw [runsBy_cons_neg p c cs (by simpa using hpc)] at hw
        exact ih cs (by simpa using hlen) w hw

/-- Every run is nonempty and consists of characters satisfying `p`. -/
lemma runsBy_mem (p : Char → Bool) (cs : List Char) :
    ∀ w ∈ runsBy p cs, w ≠ [] ∧ ∀ c ∈ w, p c = true :=
  runsBy_mem_aux p cs.length cs (le_refl _)

lemma clean_nil : CleanL [] := by
  refine ⟨by simp, by simp, by simp, by simp⟩

lemma clean_head_false {c : Char} {cs : List Char} (h : CleanL (c :: cs)) :
    isPySpace c = false := by
  have hc : c ≠ ' ' := h.2.2.1 c rfl
  cases hsp : isPySpace c with
  | false => rfl
  | true => exact absurd (h.1 c (by simp) hsp) hc

lemma clean_dropWhile_id {cs : List Char} (h3 : ∀ c, cs.head? = some c → c ≠ ' ')
    (h1 : ∀ c ∈ cs, isPySpace c = true → c = ' ') :
    cs.dropWhile isPySpace = cs := by
  cases cs with
  | nil => rfl
  | cons c cs =>
    rw [List.dropWhile_cons_of_neg]
    have hc : c ≠ ' ' := h3 c rfl
    cases hsp : isPySpace c with
    | false => simp
    | true => exact absurd (h1 c (by simp) hsp) hc

lemma clean_strip_id {cs : List Char} (h : CleanL cs) : pyStripL cs = cs := by
  unfold pyStripL
  rw [clean_dropWhile_id h.2.2.1 h.1, List.rdropWhile_eq_self_iff.mpr]
  intro hl
  have hlast : cs.getLast? = some (cs.getLast hl) := List.getLast?_eq_getLast cs hl
  have hne : cs.getLast hl ≠ ' ' := h.2.2.2 _ hlast
  intro hsp
  exact hne (h.1 _ (List.getLast_mem hl) hsp)

lemma chain'_nodouble_of (w : List Char) (h : ∀ c ∈ w, c ≠ ' ') :
    List.Chain' (fun a b => ¬(a = ' ' ∧ b = ' ')) w := by
  induction w with
  | nil => simp
  | cons c w ih =>
    rw [List.chain'_cons']
    exact ⟨fun b _ hb => (h c (by simp)) hb.1,
      ih (fun d hd => h d (by simp [hd]))⟩

lemma joinSp_cons_cons (w w2 : List Char) (ws : List (List Char)) :
    joinSp (w :: w2 :: ws) = w ++ ' ' :: joinSp (w2 :: ws) := rfl

lemma joinSp_head? {w : List Char} (hw : w ≠ []) (ws : List (List Char)) :
    (joinSp (w :: ws)).head? = w.head? := by
  cases ws with
  | nil => rfl
  | cons w2 ws => rw [joinSp_cons_cons, List.head?_append_of_ne_nil _ hw]

lemma joinSp_ne_nil {w : List Char} (hw : w ≠ []) (ws : List (List Char)) :
    joinSp (w :: ws) ≠ [] := by
  cases ws with
  | nil => exact hw
  | cons w2 ws =>
    rw [joinSp_cons_cons]
    intro hc
    exact (List.cons_ne_nil _ _) (List.append_eq_nil.mp hc).2

/-- Joining nonempty space-free words with single spaces yields a clean
line. -/
lemma clean_join (ws : List (List Char))
    (hws : ∀ w ∈ ws, w ≠ [] ∧ ∀ c ∈ w, isPySpace c = false) : CleanL (joinSp ws) := by
  induction ws with
  | nil => exact clean_nil
  | cons w ws ih =>
    have hw := hws w (by simp)
    have hwnosp : ∀ c ∈ w, c ≠ ' ' := by
      intro c hc hsp
      have := hw.2 c hc
      rw [hsp] at this
      simp [isPySpace] at this
    cases ws with
    | nil =>
      refine ⟨?_, chain'_nodouble_of w hwnosp, ?_, ?_⟩
      · intro c hc hsp
        rw [hw.2 c hc] at hsp
        cases hsp
      · intro c hcs
        exact hwnosp c (List.mem_of_mem_head? hcs)
      · intro c hcs
        rw [show joinSp [w] = w from rfl] at hcs
        exact hwnosp c (List.mem_of_mem_getLast? hcs)
    | cons w2 ws2 =>
      have ih2 := ih (fun v hv => hws v (by simp [hv]))
      have hw2 := hws w2 (by simp)
      have hw2nosp : ∀ c ∈ w2, c ≠ ' ' := by
        intro c hc hsp
        have := hw2.2 c hc
        rw [hsp] at this
        simp [isPySpace] at this
      rw [joinSp_cons_cons]
      refine ⟨?_, ?_, ?_, ?_⟩
      · intro c hc hsp
        rcases List.mem_append.mp hc with hcw | hctail
        · rw [hw.2 c hcw] at hsp; cases hsp
        · rcases List.mem_cons.mp hctail with rfl | hcj
          · rfl
          · exact ih2.1 c hcj hsp
      · rw [List.chain'_append]
        refine ⟨chain'_nodouble_of w hwnosp, ?_, ?_⟩
        · rw [List.chain'_cons']
          refine ⟨?_, ih2.2.1⟩
          intro b hb hcon
          rw [joinSp_head? hw2.1 ws2] at hb
          exact hw2nosp b (List.mem_of_mem_head? hb) hcon.2
        · intro x hx y hy hcon
          exact hwnosp x (List.mem_of_mem_getLast? hx) hcon.1
      · intro c hcs
        rw [List.head?_append_of_ne_nil _ hw.1] at hcs
        exact hwnosp c (List.mem_of_mem_head? hcs)
      · intro c hcs
        rw [List.getLast?_append_of_ne_nil _ (by simp)] at hcs
        have hj : joinSp (w2 :: ws2) ≠ [] := joinSp_ne_nil hw2.1 ws2
        rw [show (' ' :: joinSp (w2 :: ws2) : List Char) = [' '] ++ joinSp (w2 :: ws2) from rfl,
          List.getLast?_append_of_ne_nil _ hj] at hcs
        exact ih2.2.2.2 c hcs

/-- The whitespace collapser always produces a clean line. -/
lemma collapse_clean (s : String) : CleanL (collapseWs s).data := by
  apply clean_join
  intro w hw
  obtain ⟨h1, h2⟩ := runsBy_mem _ _ w hw
  exact ⟨h1, fun c hc => by simpa using h2 c hc⟩

lemma dropWhile_cons_head {p : Char → Bool} {cs t : List Char} {d : Char}
    (h : cs.dropWhile p = d :: t) : p d = false := by
  induction cs with
  | nil => cases h
  | cons c cs ih =>
    by_cases hpc : p c = true
    · rw [List.dropWhile_cons_of_pos hpc] at h
      exact ih h
    · rw [List.dropWhile_cons_of_neg hpc] at h
      cases h
      simpa using hpc

lemma pyWords_ne_nil {cs : List Char} (hne : cs ≠ []) (hclean : CleanL cs) :
    pyWords cs ≠ [] := by
  cases cs with
  | nil => exact absurd rfl hne
  | cons c cs =>
    unfold pyWords
    rw [runsBy_cons_pos _ c cs (by simp [clean_head_false hclean])]
    simp

lemma joinSp_cons_ne (w : List Char) {ws : List (List Char)} (h : ws ≠ []) :
    joinSp (w :: ws) = w ++ ' ' :: joinSp ws := by
  cases ws with
  | nil => exact absurd rfl h
  | cons w2 ws2 => rfl

/-- Collapsing a clean line is the identity. -/
lemma clean_collapse_aux (n : Nat) : ∀ cs : List Char, cs.length ≤ n → CleanL cs →
    joinSp (pyWords cs) = cs := by
  induction n with
  | zero =>
    intro cs hl _
    rw [List.length_eq_zero.mp (Nat.le_zero.mp hl)]
    rfl
  | succ n ih =>
    intro cs hl hc
    cases cs with
    | nil => rfl
    | cons c cs =>
      have hcns : isPySpace c = false := clean_head_false hc
      unfold pyWords
      rw [runsBy_cons_pos _ c cs (by simp [hcns])]
      cases hr : cs.dropWhile (fun d => !isPySpace d) with
      | nil =>
        have htake : cs.takeWhile (fun d => !isPySpace d) = cs := by
          have h0 := List.takeWhile_append_dropWhile (p := fun d => !isPySpace d) (l := cs)
          rw [hr, List.append_nil] at h0
          exact h0
        rw [htake]
        rfl
      | cons d rest2 =>
        have hsuf : (d :: rest2 : List Char) <:+ cs := by
          rw [← hr]
          exact List.dropWhile_suffix _
        have hd_mem : d ∈ cs := hsuf.subset (by simp)
        have hdfalse : (fun x => !isPySpace x) d = false := dropWhile_cons_head hr
        have hdeq : d = ' ' := hc.1 d (List.mem_cons_of_mem c hd_mem) (by simpa using hdfalse)
        have hsplit : cs = cs.takeWhile (fun d => !isPySpace d) ++ d :: rest2 := by
          conv_lhs => rw [← List.takeWhile_append_dropWhile (p := fun d => !isPySpace d) (l := cs)]
          rw [hr]
        have hrest2ne : rest2 ≠ [] := by
          intro h0
          subst h0
          have hgl : (c :: cs).getLast? = some d := by
            rw [hsplit,
              show c :: (cs.takeWhile (fun d => !isPySpace d) ++ [d]) =
                (c :: cs.takeWhile (fun d => !isPySpace d)) ++ [d] from rfl]
            exact List.getLast?_concat _
          exact (hc.2.2.2 d hgl) hdeq
        have hchain2 : List.Chain' (fun a b => ¬(a = ' ' ∧ b = ' ')) (d :: rest2) :=
          hc.2.1.suffix (hsuf.trans (List.suffix_cons c cs))
        have hclean2 : CleanL rest2 := by
          refine ⟨?_, ?_, ?_, ?_⟩
          · intro x hx hsp
            exact hc.1 x
              (List.mem_cons_of_mem c (((List.suffix_cons d rest2).trans hsuf).subset hx)) hsp
          · exact hchain2.suffix (List.suffix_cons d rest2)
          · intro x hx
            have := (List.chain'_cons'.mp hchain2).1 x hx
            intro hxeq
            exact this ⟨hdeq, hxeq⟩
          · intro x hx
            refine hc.2.2.2 x ?_
            have hsh : (c :: cs : List Char) =
                (c :: cs.takeWhile (fun d => !isPySpace d) ++ [d]) ++ rest2 := by
              conv_lhs => rw [hsplit]
              simp
            rw [hsh, List.getLast?_append_of_ne_nil _ hrest2ne]
            exact hx
        have hlen2 : rest2.length ≤ n := by
          have := congrArg List.length hsplit
          simp only [List.length_append, List.length_cons] at this
          simp only [List.length_cons] at hl
          omega
        have hih := ih rest2 hlen2 hclean2
        rw [runsBy_cons_neg _ d rest2 hdfalse,
          joinSp_cons_ne _ (show (runsBy (fun c => !isPySpace c) rest2 : List (List Char)) ≠ []
            from pyWords_ne_nil hrest2ne hclean2)]
        show c :: (cs.takeWhile (fun d => !isPySpace d) ++ ' ' :: joinSp (pyWords rest2)) = c :: cs
        rw [hih]
        conv_rhs => rw [hsplit]
        rw [hdeq]

/-- Stripping the take of a line whose space characters are single internal
ASCII spaces yields a clean line. -/
lemma clean_pyStrip_of (t : List Char)
    (h1 : ∀ c ∈ t, isPySpace c = true → c = ' ')
    (h2 : List.Chain' (fun a b => ¬(a = ' ' ∧ b = ' ')) t)
    (h3 : ∀ c, t.head? = some c → c ≠ ' ') : CleanL (pyStripL t) := by
  unfold pyStripL
  rw [clean_dropWhile_id h3 h1]
  have hpre : t.rdropWhile isPySpace <+: t := List.rdropWhile_prefix _ _
  refine ⟨?_, h2.prefix hpre, ?_, ?_⟩
  · intro c hc hsp
    exact h1 c (hpre.subset hc) hsp
  · intro c hcs
    refine h3 c ?_
    obtain ⟨u, hu⟩ := hpre
    rw [← hu, List.head?_append_of_ne_nil]
    · exact hcs
    · intro h0
      rw [h0] at hcs
      cases hcs
  · intro c hcs
    cases hne : t.rdropWhile isPySpace with
    | nil => rw [hne] at hcs; cases hcs
    | cons e es =>
      have hnn : t.rdropWhile isPySpace ≠ [] := by rw [hne]; simp
      have hlast := List.rdropWhile_last_not (p := isPySpace) (l := t) hnn
      rw [List.getLast?_eq_getLast _ hnn] at hcs
      injection hcs with hcs
      intro hceq
      rw [hcs, hceq] at hlast
      exact hlast (by decide)

/-- Stripping a take of a clean line is clean. -/
lemma clean_strip_take {cs : List Char} (h : CleanL cs) (k : Nat) :
    CleanL (pyStripL (cs.take k)) := by
  refine clean_pyStrip_of _ ?_ ?_ ?_
  · intro c hc hsp
    exact h.1 c (List.take_subset k cs hc) hsp
  · have := h.2.1
    exact this.prefix (List.take_prefix k cs)
  · intro c hcs
    refine h.2.2.1 c ?_
    cases cs with
    | nil => rw [List.take_nil] at hcs; cases hcs
    | cons x xs =>
      cases k with
      | zero => cases hcs
      | succ k => rw [List.take_succ_cons] at hcs; exact hcs

/-- `subFind?` only reports indices within the list. -/
lemma subFind?_le_length {pat cs : List Char} {i : Nat}
    (h : subFind? pat cs = some i) : i ≤ cs.length := by
  induction cs generalizing i with
  | nil =>
    rw [subFind?] at h
    split at h
    · cases h; exact Nat.le_refl 0
    · cases h
  | cons c cs ih =>
    rw [subFind?] at h
    split at h
    · cases h; exact Nat.zero_le _
    · cases hr : subFind? pat cs with
      | none => rw [hr] at h; cases h
      | some j =>
        rw [hr] at h
        simp only [Option.map_some'] at h
        cases h
        exact Nat.succ_le_succ (ih hr)

/-- The head of a nonempty take is the head of the list. -/
lemma take_head? {cs : List Char} {k : Nat} {c : Char}
    (hcs : (cs.take k).head? = some c) : cs.head? = some c := by
  cases cs with
  | nil => rw [List.take_nil] at hcs; cases hcs
  | cons x xs =>
    cases k with
    | zero => cases hcs
    | succ k => rw [List.take_succ_cons] at hcs; exact hcs

/-- Dropping while `p` skips over a leading block that wholly satisfies
`p`. -/
lemma dropWhile_append_all {p : Char → Bool} {xs : List Char}
    (h : ∀ x ∈ xs, p x = true) (ys : List Char) :
    (xs ++ ys).dropWhile p = ys.dropWhile p := by
  induction xs with
  | nil => rfl
  | cons x xs ih =>
    rw [List.cons_append, List.dropWhile_cons_of_pos (h x (by simp))]
    exact ih (fun y hy => h y (by simp [hy]))

/-- `rdropWhile` ignores a trailing block that wholly satisfies `p`. -/
lemma rdropWhile_append_all {p : Char → Bool} {ys : List Char}
    (h : ∀ y ∈ ys, p y = true) (xs : List Char) :
    (xs ++ ys).rdropWhile p = xs.rdropWhile p := by
  unfold List.rdropWhile
  rw [List.reverse_append,
    dropWhile_append_all (fun y hy => h y (List.mem_reverse.mp hy))]

/-- Every list splits into its `rdropWhile` kernel and an all-`p` tail. -/
lemma rdropWhile_decomp (p : Char → Bool) (l : List Char) :
    l = l.rdropWhile p ++ (l.reverse.takeWhile p).reverse ∧
    ∀ x ∈ (l.reverse.takeWhile p).reverse, p x = true := by
  constructor
  · have h1 : l = (l.reverse.takeWhile p ++ l.reverse.dropWhile p).reverse := by
      rw [List.takeWhile_append_dropWhile, List.reverse_reverse]
    rw [List.reverse_append] at h1
    conv_lhs => rw [h1]
    rfl
  · intro x hx
    exact List.mem_takeWhile_imp (List.mem_reverse.mp hx)

/-- On a clean line `rdropWhile` is the identity. -/
lemma clean_rdropWhile_id {cs : List Char} (h : CleanL cs) :
    cs.rdropWhile isPySpace = cs := by
  have h0 := clean_strip_id h
  rw [pyStripL, clean_dropWhile_id h.2.2.1 h.1] at h0
  exact h0

/-- Appending an all-space tail to a clean line strips back to the line. -/
lemma clean_strip_append_spaces {a s : List Char} (ha : CleanL a)
    (hs : ∀ x ∈ s, isPySpace x = true) : pyStripL (a ++ s) = a := by
  cases a with
  | nil =>
    rw [List.nil_append]
    unfold pyStripL
    rw [List.dropWhile_eq_nil_iff.mpr (fun x hx => hs x hx)]
    rfl
  | cons e es =>
    unfold pyStripL
    rw [List.cons_append,
      List.dropWhile_cons_of_neg (by simp [clean_head_false ha]),
      ← List.cons_append, rdropWhile_append_all hs _, clean_rdropWhile_id ha]

/-- On a clean line, truncating the stripped truncation at an earlier index
and stripping again is the same as stripping the direct truncation. -/
lemma clean_strip_take_take {cs : List Char} (hc : CleanL cs) {i k : Nat}
    (hik : i ≤ k) :
    pyStripL ((pyStripL (cs.take k)).take i) = pyStripL (cs.take i) := by
  have hdw : (cs.take k).dropWhile isPySpace = cs.take k :=
    clean_dropWhile_id (fun c hcs => hc.2.2.1 c (take_head? hcs))
      (fun c hcmem hsp => hc.1 c (List.take_subset k cs hcmem) hsp)
  have hA : pyStripL (cs.take k) = (cs.take k).rdropWhile isPySpace := by
    rw [pyStripL, hdw]
  obtain ⟨hdec, hall⟩ := rdropWhile_decomp isPySpace (cs.take k)
  by_cases hiA : i ≤ ((cs.take k).rdropWhile isPySpace).length
  · have hpre : (cs.take k).rdropWhile isPySpace <+: cs.take k :=
      List.rdropWhile_prefix _ _
    have h1 : ((cs.take k).rdropWhile isPySpace).take i = (cs.take k).take i := by
      conv_lhs => rw [List.prefix_iff_eq_take.mp hpre]
      rw [List.take_take, Nat.min_eq_left hiA]
    have h2 : (cs.take k).take i = cs.take i := by
      rw [List.take_take, Nat.min_eq_left hik]
    rw [hA, h1, h2]
  · push_neg at hiA
    have hAtake : ((cs.take k).rdropWhile isPySpace).take i =
        (cs.take k).rdropWhile isPySpace := List.take_of_length_le (le_of_lt hiA)
    have hAclean : CleanL ((cs.take k).rdropWhile isPySpace) := by
      rw [← hA]
      exact clean_strip_take hc k
    have h2 : cs.take i = (cs.take k).take i := by
      rw [List.take_take, Nat.min_eq_left hik]
    have h3 : (cs.take k).take i = (cs.take k).rdropWhile isPySpace ++
        (((cs.take k).reverse.takeWhile isPySpace).reverse.take
          (i - ((cs.take k).rdropWhile isPySpace).length)) := by
      conv_lhs => rw [hdec]
      rw [List.take_append_eq_append_take, hAtake]
    rw [hA, hAtake, h2, h3,
      clean_strip_append_spaces hAclean
        (fun x hx => hall x (List.take_subset _ _ hx))]
    exact clean_strip_id hAclean

/-- Invariant of the hard-term loop on a clean line: the visible side is the
strip of a truncation of the line and the shadow is the matching truncation
of its uppercase image. -/
lemma hardFold_inv {cs : List Char} (hc : CleanL cs) (ts : List String) :
    ∀ st : List Char × List Char,
      (∃ k, st.1 = pyStripL (cs.take k) ∧ st.2 = (cs.map pyUpperChar).take k) →
      ∃ k, (ts.foldl hardCutStep st).1 = pyStripL (cs.take k) ∧
        (ts.foldl hardCutStep st).2 = (cs.map pyUpperChar).take k := by
  induction ts with
  | nil =>
    intro st h
    exact h
  | cons t rest ih =>
    intro st h
    rw [List.foldl_cons]
    refine ih _ ?_
    obtain ⟨k, h1, h2⟩ := h
    unfold hardCutStep
    cases hf : subFind? t.data st.2 with
    | none => exact ⟨k, h1, h2⟩
    | some i =>
      have hik : i ≤ k := by
        have h0 := subFind?_le_length hf
        rw [h2, List.length_take, List.length_map] at h0
        omega
      refine ⟨i, ?_, ?_⟩
      · show pyStripL (st.1.take i) = pyStripL (cs.take i)
        rw [h1]
        exact clean_strip_take_take hc hik
      · show st.2.take i = (cs.map pyUpperChar).take i
        rw [h2, List.take_take, Nat.min_eq_left hik]

/-- The hard-term loop on a clean line leaves a strip of a truncation of the
line, matched by the truncation of its uppercase image. -/
lemma hardCutPair_char {cs : List Char} (hc : CleanL cs) :
    ∃ k, (hardCutPair cs).1 = pyStripL (cs.take k) ∧
      (hardCutPair cs).2 = (cs.map pyUpperChar).take k := by
  refine hardFold_inv hc hardTerms (cs, cs.map pyUpperChar) ⟨cs.length, ?_, ?_⟩
  · rw [List.take_length]
    exact (clean_strip_id hc).symm
  · rw [List.take_of_length_le (le_of_eq (List.length_map cs pyUpperChar))]

/-- After cutting at a term's own first occurrence the term is gone. -/
lemma hardCutStep_self_none (st : List Char × List Char) (t : String)
    (ht : t.data ≠ []) : subFind? t.data (hardCutStep st t).2 = none := by
  unfold hardCutStep
  cases hf : subFind? t.data st.2 with
  | none => exact hf
  | some i => exact subFindSomeTakeNone ht hf

/-- A term absent from the shadow stays absent through any later step. -/
lemma hardCutStep_keep_none {st : List Char × List Char} {t : String}
    (h : subFind? t.data st.2 = none) (t2 : String) :
    subFind? t.data (hardCutStep st t2).2 = none := by
  unfold hardCutStep
  cases hf : subFind? t2.data st.2 with
  | none => exact h
  | some i => exact subFindTakeNone i h

/-- A term absent from the shadow stays absent through the rest of the
loop. -/
lemma hardFold_keep_none (ts : List String) (t : String) :
    ∀ st : List Char × List Char, subFind? t.data st.2 = none →
      subFind? t.data (ts.foldl hardCutStep st).2 = none := by
  induction ts with
  | nil =>
    intro st h
    exact h
  | cons t2 rest ih =>
    intro st h
    rw [List.foldl_cons]
    exact ih _ (hardCutStep_keep_none h t2)

/-- Every term of the loop is absent from the final shadow. -/
lemma hardFold_mem_none (ts : List String) (t : String) (htne : t.data ≠ [])
    (ht : t ∈ ts) : ∀ st : List Char × List Char,
      subFind? t.data (ts.foldl hardCutStep st).2 = none := by
  induction ts with
  | nil => cases ht
  | cons t2 rest ih =>
    intro st
    rw [List.foldl_cons]
    rcases List.mem_cons.mp ht with heq | hmem
    · subst heq
      exact hardFold_keep_none rest t _ (hardCutStep_self_none st t htne)
    · exact ih hmem (hardCutStep st t2)

/-- No hard-stop phrase survives in the shadow of the hard-term loop. -/
lemma hardCutPair_no_terms (cs : List Char) :
    ∀ t ∈ hardTerms, subFind? t.data (hardCutPair cs).2 = none := by
  have hall : ∀ t ∈ hardTerms, t.data ≠ [] := by decide
  intro t ht
  exact hardFold_mem_none hardTerms t (hall t ht) ht _

/-- If no term occurs in the uppercase image, the hard-term loop is the
identity. -/
lemma hardFold_id_of_none (cs : List Char) (ts : List String)
    (h : ∀ t ∈ ts, subFind? t.data (cs.map pyUpperChar) = none) :
    ts.foldl hardCutStep (cs, cs.map pyUpperChar) = (cs, cs.map pyUpperChar) := by
  induction ts with
  | nil => rfl
  | cons t rest ih =>
    rw [List.foldl_cons]
    have hstep : hardCutStep (cs, cs.map pyUpperChar) t = (cs, cs.map pyUpperChar) := by
      unfold hardCutStep
      rw [show subFind? t.data (cs, cs.map pyUpperChar).2 = none from
        h t (List.mem_cons_self t rest)]
    rw [hstep]
    exact ih (fun t2 h2 => h t2 (List.mem_cons_of_mem t h2))

/-- `hardCut` is the identity on a line whose uppercase image holds no hard
term. -/
lemma hardCut_id_of_none (cs : List Char)
    (h : ∀ t ∈ hardTerms, subFind? t.data (cs.map pyUpperChar) = none) :
    hardCut cs = cs := by
  show (hardCutPair cs).1 = cs
  unfold hardCutPair
  rw [hardFold_id_of_none cs hardTerms h]

/-- The trigger index is absent exactly when every trigger is absent. -/
lemma triggerIdx?_none_iff (cs : List Char) :
    triggerIdx? cs = none ↔ ∀ t ∈ triggerList, findCI? t cs = none := by
  unfold triggerIdx?
  rw [List.min?_eq_none_iff, List.filterMap_eq_nil_iff]

/-- The trigger cut is always the strip of a truncation of its input. -/
lemma triggerCut_shape (cs : List Char) :
    ∃ k, triggerCut cs = pyStripL (cs.take k) := by
  unfold triggerCut
  cases h : triggerIdx? cs with
  | none => exact ⟨cs.length, by rw [List.take_length]⟩
  | some i => exact ⟨i, rfl⟩

/-- After the trigger cut no trigger occurs in the remaining line. -/
lemma triggerCut_no_trigger (cs : List Char) :
    ∀ t ∈ triggerList, findCI? t (triggerCut cs) = none := by
  have hall : ∀ t ∈ triggerList, t.data ≠ [] := by decide
  intro t ht
  have htne : t.data.map pyLowerChar ≠ [] := by
    intro h0
    exact hall t ht (List.map_eq_nil_iff.mp h0)
  unfold triggerCut
  cases hidx : triggerIdx? cs with
  | none =>
    have hnone : findCI? t cs = none := (triggerIdx?_none_iff cs).mp hidx t ht
    unfold findCI? at hnone ⊢
    exact subFindInfixNone ((pyStripL_within cs).map pyLowerChar) hnone
  | some i =>
    unfold findCI?
    cases hfind : subFind? (t.data.map pyLowerChar)
        ((pyStripL (cs.take i)).map pyLowerChar) with
    | none => rfl
    | some j =>
      exfalso
      have hinf : (pyStripL (cs.take i)).map pyLowerChar <:+:
          (cs.map pyLowerChar).take i := by
        have h1 := (pyStripL_within (cs.take i)).map pyLowerChar
        rwa [List.map_take] at h1
      cases h3 : subFind? (t.data.map pyLowerChar) ((cs.map pyLowerChar).take i) with
      | none =>
        rw [subFindInfixNone hinf h3] at hfind
        cases hfind
      | some j2 =>
        obtain ⟨hlt, m, hm, hle⟩ := subFindTakeSome htne h3
        have hmem : m ∈ triggerList.filterMap (fun t2 => findCI? t2 cs) :=
          List.mem_filterMap.mpr ⟨t, ht, show findCI? t cs = some m from hm⟩
        have hminle : i ≤ m :=
          (List.le_min?_iff (fun _ _ _ => Nat.le_min)
            (show (triggerList.filterMap (fun t2 => findCI? t2 cs)).min? = some i
              from hidx)).mp (le_refl i) m hmem
        omega

/-- On a clean line with no trigger occurrence the trigger cut is the
identity. -/
lemma triggerCut_id {cs : List Char} (hclean : CleanL cs)
    (h : ∀ t ∈ triggerList, findCI? t cs = none) : triggerCut cs = cs := by
  unfold triggerCut
  rw [(triggerIdx?_none_iff cs).mpr h]
  exact clean_strip_id hclean

/-- Collapsing a clean line is the identity. -/
lemma clean_collapse {cs : List Char} (h : CleanL cs) : joinSp (pyWords cs) = cs :=
  clean_collapse_aux cs.length cs (le_refl _) h

/-- The strip of a truncation is an infix of the original line. -/
lemma strip_take_within (cs : List Char) (k : Nat) : pyStripL (cs.take k) <:+: cs :=
  (pyStripL_within _).trans (List.take_prefix k cs).isInfix

/-- `String.mk` then `.data` is the identity. -/
lemma strMk_data (l : List Char) : (String.mk l).data = l := rfl

/-- The normalizer, unfolded one step. -/
lemma normalizeMz_eq_mk (s : String) :
    normalizeMz s = String.mk (triggerCut (hardCut (collapseWs s).data)) := rfl

/-- The character list of a normalized line. -/
lemma normalizeMz_data (s : String) :
    (normalizeMz s).data = triggerCut (hardCut (collapseWs s).data) :=
  (congrArg String.data (normalizeMz_eq_mk s)).trans (strMk_data _)

/-- The character list of a collapsed line. -/
lemma collapseWs_data (s : String) :
    (collapseWs s).data = joinSp (pyWords s.data) := by
  unfold collapseWs
  exact rfl

/-- C10: the Mondelez line normalizer (whitespace collapse, hard-term
truncation, trigger truncation; src/extractors.py lines 630-657) is
idempotent — running a line through it twice gives the same string as running
it once. -/
theorem c10_normalizer_idempotent (linha : String) :
    normalizeMz (normalizeMz linha) = normalizeMz linha := by
  have hcclean : CleanL (collapseWs linha).data := collapse_clean linha
  obtain ⟨k, hk1, hk2⟩ := hardCutPair_char hcclean
  have hclean1 : CleanL (hardCut (collapseWs linha).data) := by
    show CleanL (hardCutPair (collapseWs linha).data).1
    rw [hk1]
    exact clean_strip_take hcclean k
  have hupnone : ∀ t ∈ hardTerms,
      subFind? t.data ((hardCut (collapseWs linha).data).map pyUpperChar) = none := by
    intro t ht
    refine subFindInfixNone ?_ (hardCutPair_no_terms (collapseWs linha).data t ht)
    show (hardCutPair (collapseWs linha).data).1.map pyUpperChar <:+:
      (hardCutPair (collapseWs linha).data).2
    rw [hk1, hk2, ← List.map_take]
    exact (pyStripL_within _).map pyUpperChar
  obtain ⟨k2, hk3⟩ := triggerCut_shape (hardCut (collapseWs linha).data)
  have hcleanr : CleanL (triggerCut (hardCut (collapseWs linha).data)) := by
    rw [hk3]
    exact clean_strip_take hclean1 k2
  have hrinf : triggerCut (hardCut (collapseWs linha).data) <:+:
      hardCut (collapseWs linha).data := by
    rw [hk3]
    exact strip_take_within _ k2
  have hupnone_r : ∀ t ∈ hardTerms,
      subFind? t.data
        ((triggerCut (hardCut (collapseWs linha).data)).map pyUpperChar) = none :=
    fun t ht => subFindInfixNone (hrinf.map pyUpperChar) (hupnone t ht)
  have htrignone : ∀ t ∈ triggerList,
      findCI? t (triggerCut (hardCut (collapseWs linha).data)) = none :=
    triggerCut_no_trigger (hardCut (collapseWs linha).data)
  rw [normalizeMz_eq_mk (normalizeMz linha), collapseWs_data (normalizeMz linha),
    normalizeMz_data linha, clean_collapse hcleanr,
    hardCut_id_of_none _ hupnone_r, triggerCut_id hcleanr htrignone]
  exact (normalizeMz_eq_mk linha).symm

end ConvertePdf
